import Mathlib

/-!
# Verification of `null.Int` (Go package `null`, file `int.go`)

A shallow embedding of the nullable integer wrapper and of the library
routines it calls, followed by theorems about its operations.

Conventions of the embedding:
* a machine integer is a mathematical integer (`ℤ` or `ℕ`) and every Go
  conversion between widths is an explicit two's-complement wrap;
* a byte is a natural number (a real byte is below 256) and a byte string is
  a `List ℕ`; a Go `[]byte` value is `Bytes`, where `none` is the nil slice;
* a method with a pointer receiver takes the wrapper before the call and
  returns the wrapper after the call next to its Go result;
* a Go `error` result is `Option error`, `none` being Go's `nil`.
-/

namespace null

/-! ## Platform integers -/

/-- The two widths Go's `int` can have. -/
inductive Arch where
  | bits32
  | bits64
  deriving DecidableEq, Repr

/-- Go `strconv.IntSize`: the size in bits of an `int`. -/
def IntSize : Arch → ℕ
  | Arch.bits32 => 32
  | Arch.bits64 => 64

/-- Two's-complement reading of the low `w` bits of `x` as a signed number. -/
def wrapSigned (w : ℕ) (x : ℤ) : ℤ :=
  (x + 2 ^ (w - 1)) % 2 ^ w - 2 ^ (w - 1)

/-- Go conversion `int(x)`. -/
def int (a : Arch) (x : ℤ) : ℤ := wrapSigned (IntSize a) x

/-- Go conversion `int32(x)`. -/
def int32 (x : ℤ) : ℤ := wrapSigned 32 x

/-- Go conversion `int64(x)`. -/
def int64 (x : ℤ) : ℤ := wrapSigned 64 x

/-- Go conversion `uint64(x)`. -/
def uint64 (x : ℤ) : ℕ := (x % 2 ^ 64).toNat

/-- Whether `x` is representable as a signed `w`-bit integer. -/
def fitsBits (w : ℕ) (x : ℤ) : Prop := -(2 ^ (w - 1)) ≤ x ∧ x < 2 ^ (w - 1)

instance (w : ℕ) (x : ℤ) : Decidable (fitsBits w x) := by
  unfold fitsBits; infer_instance

/-- Whether `x` is a value of the platform `int`. -/
def fitsInt (a : Arch) (x : ℤ) : Prop := fitsBits (IntSize a) x

instance (a : Arch) (x : ℤ) : Decidable (fitsInt a x) := by
  unfold fitsInt; infer_instance

/-! ## Byte strings and errors -/

/-- Go `[]byte`: `none` is the nil slice, `some l` a non-nil slice holding `l`. -/
abbrev Bytes := Option (List ℕ)

/-- The bytes a slice holds; the nil slice holds none. -/
def Bytes.elems : Bytes → List ℕ
  | none => []
  | some l => l

/-- Go `len(b)`. -/
def Bytes.len (b : Bytes) : ℕ := b.elems.length

/-- The two sentinel causes of a `*strconv.NumError`. -/
inductive NumErr where
  | ErrRange
  | ErrSyntaxKind
  deriving DecidableEq, Repr

/-- The Go `error` values the wrapper can return: a decode error of
`encoding/json` (`*json.SyntaxError` or `*json.UnmarshalTypeError`), a
`*strconv.NumError` of `strconv.ParseInt`, and a conversion error of
`convert.ConvertAssign`. -/
inductive error where
  | decode
  | parse (cause : NumErr)
  | conversion
  deriving DecidableEq, Repr

/-- Modelled from the spec: the package variable `NullBytes`, declared in
another file of the package; the spec calls it the literal `null`, "exactly
the 4 bytes `null`" (ASCII `n`, `u`, `l`, `l`). -/
def NullBytes : Bytes := some [110, 117, 108, 108]

/-- Go `bytes.Equal`: same length and same bytes; a nil slice equals an empty one. -/
def bytesEqual (x y : Bytes) : Bool := decide (x.elems = y.elems)

/-! ## `strconv` -/

/-- ASCII decimal digit test, `'0' <= c && c <= '9'`. -/
def isDigit (c : ℕ) : Bool := decide (48 ≤ c) && decide (c ≤ 57)

/-- Go `strconv.lower`: `c | ('x' - 'X')`. -/
def lower (c : ℕ) : ℕ := c ||| 32

/-- The largest `uint64`. -/
def maxUint64 : ℕ := 2 ^ 64 - 1

/-- The digit loop of `strconv.ParseUint` for base 10, started with the
accumulator `n`. The result is the pair `(value, err)` that `ParseUint`
returns: a byte that is no digit of the base ends the loop with a syntax
error, an overflow ends it with `maxVal` and a range error. -/
def parseUintLoop (maxVal : ℕ) : List ℕ → ℕ → ℕ × Option NumErr
  | [], n => (n, none)
  | c :: cs, n =>
    let d? : Option ℕ :=
      if 48 ≤ c ∧ c ≤ 57 then some (c - 48)
      else if 97 ≤ lower c ∧ lower c ≤ 122 then some (lower c - 97 + 10)
      else none
    match d? with
    | none => (0, some NumErr.ErrSyntaxKind)
    | some d =>
      if d ≥ 10 then (0, some NumErr.ErrSyntaxKind)
      else if n ≥ maxUint64 / 10 + 1 then (maxVal, some NumErr.ErrRange)
      else
        let n10 := (n * 10) % 2 ^ 64
        let n1 := (n10 + d) % 2 ^ 64
        if n1 < n10 ∨ n1 > maxVal then (maxVal, some NumErr.ErrRange)
        else parseUintLoop maxVal cs n1

/-- Go `strconv.ParseUint(s, 10, bitSize)`; `bitSize = 0` means `IntSize`. -/
def ParseUint (a : Arch) (s : List ℕ) (bitSize : ℕ) : ℕ × Option NumErr :=
  if s = [] then (0, some NumErr.ErrSyntaxKind)
  else
    let bs := if bitSize = 0 then IntSize a else bitSize
    parseUintLoop (2 ^ bs - 1) s 0

/-- Go `strconv.ParseInt(s, 10, bitSize)`: an optional sign, then
`ParseUint`, then the range check against `1 << (bitSize-1)`. The result is
the pair `(i, err)`. -/
def ParseInt (a : Arch) (s : List ℕ) (bitSize : ℕ) : ℤ × Option NumErr :=
  match s with
  | [] => (0, some NumErr.ErrSyntaxKind)
  | c :: rest =>
    let neg : Bool := decide (c ≠ 43) && decide (c = 45)
    let s1 := if c = 43 then rest else if c = 45 then rest else c :: rest
    let r := ParseUint a s1 bitSize
    if r.2 = some NumErr.ErrSyntaxKind then (0, some NumErr.ErrSyntaxKind)
    else
      let bs := if bitSize = 0 then IntSize a else bitSize
      let cutoff : ℕ := 2 ^ (bs - 1)
      if neg = false ∧ r.1 ≥ cutoff then (((cutoff - 1 : ℕ) : ℤ), some NumErr.ErrRange)
      else if neg = true ∧ r.1 > cutoff then (-(cutoff : ℤ), some NumErr.ErrRange)
      else
        let n := int64 (r.1 : ℤ)
        (if neg then int64 (-n) else n, none)

/-- The decimal digits of `u`, most significant first, as ASCII bytes: what
`strconv.formatBits` writes for base 10. -/
def formatBits (u : ℕ) : List ℕ :=
  if h : u < 10 then [48 + u]
  else formatBits (u / 10) ++ [48 + u % 10]
termination_by u
decreasing_by omega

/-- Go `strconv.FormatInt(i, 10)` for an `int64` `i`: the magnitude is taken
in `uint64` arithmetic (`u = -u` for a negative `i`) and a `-` is put in front
of the digits of a negative number. -/
def FormatInt (i : ℤ) : List ℕ :=
  let u := uint64 i
  if i < 0 then 45 :: formatBits ((2 ^ 64 - u) % 2 ^ 64)
  else formatBits u

/-! ## `encoding/json` -/

/-- Go `json.isSpace`: space, tab, carriage return, line feed. -/
def isSpace (c : ℕ) : Bool :=
  decide (c = 32) || decide (c = 9) || decide (c = 13) || decide (c = 10)

/-- The integer part of a JSON number (scanner states `state0`, `state1`): a
single `0`, or a digit `1`..`9` followed by digits. Returns the bytes read
and the bytes left. -/
def scanIntPart : List ℕ → Option (List ℕ × List ℕ)
  | [] => none
  | c :: r =>
    if c = 48 then some ([48], r)
    else if 49 ≤ c ∧ c ≤ 57 then some (c :: r.takeWhile isDigit, r.dropWhile isDigit)
    else none

/-- The optional fraction of a JSON number (scanner states `stateDot`,
`stateDot0`): a `.` followed by at least one digit. -/
def scanFrac : List ℕ → Option (List ℕ × List ℕ)
  | [] => some ([], [])
  | c :: r =>
    if c = 46 then
      if r.takeWhile isDigit = [] then none
      else some (46 :: r.takeWhile isDigit, r.dropWhile isDigit)
    else some ([], c :: r)

/-- The optional exponent of a JSON number (scanner states `stateE`,
`stateESign`, `stateE0`): `e` or `E`, an optional sign, at least one digit. -/
def scanExp : List ℕ → Option (List ℕ × List ℕ)
  | [] => some ([], [])
  | c :: r =>
    if c = 101 ∨ c = 69 then
      let sg : List ℕ × List ℕ :=
        match r with
        | [] => ([], [])
        | s :: t => if s = 43 ∨ s = 45 then ([s], t) else ([], s :: t)
      if sg.2.takeWhile isDigit = [] then none
      else some (c :: sg.1 ++ sg.2.takeWhile isDigit, sg.2.dropWhile isDigit)
    else some ([], c :: r)

/-- A JSON number at the start of `s` (scanner state `stateNeg` onwards): an
optional `-`, an integer part, an optional fraction, an optional exponent.
Returns the number's bytes, which is the literal the decoder reads, and the
bytes after it; `none` when `s` does not start with a JSON number. -/
def scanNumber (s : List ℕ) : Option (List ℕ × List ℕ) :=
  let sg : List ℕ × List ℕ :=
    match s with
    | [] => ([], [])
    | c :: t => if c = 45 then ([45], t) else ([], c :: t)
  match scanIntPart sg.2 with
  | none => none
  | some (ip, r1) =>
    match scanFrac r1 with
    | none => none
    | some (fp, r2) =>
      match scanExp r2 with
      | none => none
      | some (ep, r3) => some (sg.1 ++ ip ++ fp ++ ep, r3)

/-- Go `json.Unmarshal(data, &x)` for an `int64` variable holding `x`: the new
content of the variable and the error returned.

The input must be one JSON value between optional white space. The literal
`null` leaves the variable as it is and is no error; a number is handed to
`strconv.ParseInt(literal, 10, 64)` and stored, a number that `ParseInt`
rejects being an `*UnmarshalTypeError`. Every other input is an error whatever
it holds (a string, `true`, `false`, an array or an object is an
`*UnmarshalTypeError` when well formed and a `*SyntaxError` when not), so the
scanner states of those values are not spelled out. -/
def Unmarshal (a : Arch) (data : List ℕ) (x : ℤ) : ℤ × Option error :=
  match data.dropWhile isSpace with
  | [] => (x, some error.decode)
  | c :: t =>
    if c = 110 then
      if t.take 3 = [117, 108, 108] ∧ (t.drop 3).all isSpace = true then (x, none)
      else (x, some error.decode)
    else if c = 45 ∨ isDigit c = true then
      match scanNumber (c :: t) with
      | none => (x, some error.decode)
      | some (lit, rest) =>
        if rest.all isSpace = true then
          let r := ParseInt a lit 64
          if r.2 = none then (r.1, none) else (x, some error.decode)
        else (x, some error.decode)
    else (x, some error.decode)

/-! ## `database/sql/driver` and package `convert` -/

/-- A value handed over by a database driver (`driver.Value` inside an
`interface{}`): the NULL sentinel `nil`, an `int64`, a `string`, a `[]byte`, or
a value of another run-time type. -/
inductive DriverValue where
  | null
  | int64 (v : ℤ)
  | string (s : List ℕ)
  | bytes (b : List ℕ)
  | other
  deriving DecidableEq, Repr

/-- Modelled from the spec: `convert.ConvertAssign(&i.Int, value)` of the
package `convert`, which is not among the source files. The spec describes it
as "a generic type-coercion of `rawValue` into the integer field, failing with
`ConversionError` if the source value's runtime type cannot be coerced to an
integer (e.g., non-numeric text, incompatible byte layout)", over "a small
closed set of source representations (integer-like, text-like, byte-like)".
An integer that is a value of the platform `int` is stored as it is; text and
bytes are stored when they are a decimal integer of the platform `int`; every
other value is a conversion error and leaves the field as it was. -/
def ConvertAssign (a : Arch) (dest : ℤ) (src : DriverValue) : ℤ × Option error :=
  match src with
  | DriverValue.int64 v =>
    if fitsInt a v then (v, none) else (dest, some error.conversion)
  | DriverValue.string s =>
    let r := ParseInt a s (IntSize a)
    if r.2 = none then (r.1, none) else (dest, some error.conversion)
  | DriverValue.bytes b =>
    let r := ParseInt a b (IntSize a)
    if r.2 = none then (r.1, none) else (dest, some error.conversion)
  | DriverValue.null => (dest, some error.conversion)
  | DriverValue.other => (dest, some error.conversion)

/-! ## The wrapper `Int` -/

set_option linter.dupNamespace false

/-- Go `type Int struct { Int int; Valid bool; Set bool }`. The type is written
`null.Int` below, `Int` alone being its field inside the namespace `null.Int`. -/
structure Int where
  Int : ℤ
  Valid : Bool
  Set : Bool
  deriving DecidableEq, Repr

/-- Go `NewInt`. -/
def NewInt (i : ℤ) (valid : Bool) : null.Int :=
  { Int := i, Valid := valid, Set := true }

/-- Go `IntFrom`. -/
def IntFrom (i : ℤ) : null.Int := NewInt i true

/-- Go `IntFromPtr`; the pointer is `none` when nil. -/
def IntFromPtr (i : Option ℤ) : null.Int :=
  match i with
  | none => NewInt 0 false
  | some v => NewInt v true

/-- Go `Int.IsSet`. -/
def Int.IsSet (i : null.Int) : Bool := i.Set

/-- Go `(*Int).UnmarshalJSON`. -/
def Int.UnmarshalJSON (a : Arch) (i : null.Int) (data : Bytes) : null.Int × Option error :=
  let i1 : null.Int := { i with Set := true }
  if bytesEqual data NullBytes = true then
    ({ i1 with Valid := false, Int := 0 }, none)
  else
    let r := Unmarshal a data.elems 0
    match r.2 with
    | some err => (i1, some err)
    | none => ({ i1 with Int := int a r.1, Valid := true }, none)

/-- Go `(*Int).UnmarshalText`. -/
def Int.UnmarshalText (a : Arch) (i : null.Int) (text : Bytes) : null.Int × Option error :=
  let i1 : null.Int := { i with Set := true }
  if text = none ∨ text.len = 0 then
    ({ i1 with Valid := false }, none)
  else
    let r := ParseInt a text.elems 0
    let i2 : null.Int := { i1 with Valid := decide (r.2 = none) }
    let i3 : null.Int := if i2.Valid = true then { i2 with Int := int a r.1 } else i2
    (i3, r.2.map error.parse)

/-- Go `Int.MarshalJSON`. -/
def Int.MarshalJSON (i : null.Int) : Bytes × Option error :=
  if i.Valid = false then (NullBytes, none)
  else (some (FormatInt (int64 i.Int)), none)

/-- Go `Int.MarshalText`. -/
def Int.MarshalText (i : null.Int) : Bytes × Option error :=
  if i.Valid = false then (some [], none)
  else (some (FormatInt (int64 i.Int)), none)

/-- Go `(*Int).SetValid`. -/
def Int.SetValid (_i : null.Int) (n : ℤ) : null.Int :=
  { Int := n, Valid := true, Set := true }

/-- Go `Int.Ptr`; the result is `none` for the nil pointer. -/
def Int.Ptr (i : null.Int) : Option ℤ :=
  if i.Valid = false then none else some i.Int

/-- Go `Int.IsZero`. -/
def Int.IsZero (i : null.Int) : Bool := !i.Valid

/-- Go `(*Int).Scan`. -/
def Int.Scan (a : Arch) (i : null.Int) (value : DriverValue) : null.Int × Option error :=
  if value = DriverValue.null then
    ({ Int := 0, Valid := false, Set := false }, none)
  else
    let i1 : null.Int := { i with Valid := true, Set := true }
    let r := ConvertAssign a i1.Int value
    ({ i1 with Int := r.1 }, r.2)

/-- Go `Int.Value`. -/
def Int.Value (i : null.Int) : DriverValue × Option error :=
  if i.Valid = false then (DriverValue.null, none)
  else (DriverValue.int64 (int64 i.Int), none)

/-- Go `math.MaxInt32`. -/
def MaxInt32 : ℤ := 2 ^ 31 - 1

/-- Go `(*Int).Randomize`; `r` is the value the call `nextInt()` returns, read
only when `shouldBeNull` is false, and `%` on `int64` is `Int.tmod`. -/
def Int.Randomize (a : Arch) (i : null.Int) (r : ℤ) (_fieldType : List ℕ)
    (shouldBeNull : Bool) : null.Int :=
  if shouldBeNull = true then { i with Int := 0, Valid := false }
  else { i with Int := int a (int32 (Int.tmod r MaxInt32)), Valid := true }

/-! ## Vocabulary of the specification -/

/-- The number a string of ASCII decimal digits denotes, continuing from `n`. -/
def decFold (n : ℕ) (ds : List ℕ) : ℕ :=
  ds.foldl (fun acc c => acc * 10 + (c - 48)) n

/-- The number a string of ASCII decimal digits denotes. -/
def decimalValue (ds : List ℕ) : ℕ := decFold 0 ds

/-- A non-empty string of ASCII decimal digits. -/
def IsDigits (ds : List ℕ) : Prop := ds ≠ [] ∧ ∀ c ∈ ds, isDigit c = true

/-- The text `s` is an optionally signed base-10 integer denoting `v`: an
optional `+` or `-` followed by one or more decimal digits. -/
def IsSignedDecimal (s : List ℕ) (v : ℤ) : Prop :=
  ∃ ds, IsDigits ds ∧
    ((s = ds ∧ v = decimalValue ds) ∨ (s = 43 :: ds ∧ v = decimalValue ds) ∨
      (s = 45 :: ds ∧ v = -(decimalValue ds : ℤ)))

/-- The text `s` is an optionally signed base-10 integer within the range of
the platform `int`. -/
def IsPlatformDecimal (a : Arch) (s : List ℕ) : Prop :=
  ∃ v, IsSignedDecimal s v ∧ fitsInt a v

/-- A JSON integer literal denoting `v`: an optional `-`, then either the
single digit `0` or a digit string that does not start with `0`. -/
def IsJSONIntLiteral (lit : List ℕ) (v : ℤ) : Prop :=
  ∃ ds, IsDigits ds ∧ (ds.head? = some 48 → ds = [48]) ∧
    ((lit = ds ∧ v = decimalValue ds) ∨ (lit = 45 :: ds ∧ v = -(decimalValue ds : ℤ)))

/-- The bytes `data` are a JSON text (a value between optional white space)
whose value is an integer `v` in the 64-bit signed range. -/
def IsJSONInteger (data : List ℕ) (v : ℤ) : Prop :=
  ∃ pre lit post, data = pre ++ lit ++ post ∧ (∀ c ∈ pre, isSpace c = true) ∧
    (∀ c ∈ post, isSpace c = true) ∧ IsJSONIntLiteral lit v ∧ fitsBits 64 v

/-- The bytes `data` are a JSON text whose value is the literal `null`. -/
def IsJSONNull (data : List ℕ) : Prop :=
  ∃ pre post, data = pre ++ [110, 117, 108, 108] ++ post ∧
    (∀ c ∈ pre, isSpace c = true) ∧ (∀ c ∈ post, isSpace c = true)

/-! ## Arithmetic of the integer conversions -/

theorem wrapSigned_of_fits32 (x : ℤ) (h : fitsBits 32 x) : wrapSigned 32 x = x := by
  unfold fitsBits at h
  unfold wrapSigned
  norm_num at h ⊢
  omega

theorem wrapSigned_of_fits64 (x : ℤ) (h : fitsBits 64 x) : wrapSigned 64 x = x := by
  unfold fitsBits at h
  unfold wrapSigned
  norm_num at h ⊢
  omega

theorem fitsBits64_of_fitsInt (a : Arch) (x : ℤ) (h : fitsInt a x) : fitsBits 64 x := by
  cases a <;> simp only [fitsInt, IntSize, fitsBits] at h ⊢ <;> norm_num at h ⊢ <;> omega

theorem int_of_fitsInt (a : Arch) (x : ℤ) (h : fitsInt a x) : int a x = x := by
  cases a
  · exact wrapSigned_of_fits32 x h
  · exact wrapSigned_of_fits64 x h

theorem int64_of_fits (x : ℤ) (h : fitsBits 64 x) : int64 x = x :=
  wrapSigned_of_fits64 x h

theorem int64_of_fitsInt (a : Arch) (x : ℤ) (h : fitsInt a x) : int64 x = x :=
  int64_of_fits x (fitsBits64_of_fitsInt a x h)

theorem int_fitsInt (a : Arch) (x : ℤ) : fitsInt a (int a x) := by
  cases a <;> simp only [fitsInt, IntSize, fitsBits, int, wrapSigned] <;> norm_num <;> omega

/-! ## Decimal digits, `strconv.FormatInt` and `strconv.ParseInt` -/

theorem isDigit_iff (c : ℕ) : isDigit c = true ↔ 48 ≤ c ∧ c ≤ 57 := by
  simp [isDigit]

theorem isSpace_iff (c : ℕ) : isSpace c = true ↔ c = 32 ∨ c = 9 ∨ c = 13 ∨ c = 10 := by
  simp [isSpace, or_assoc]

theorem decFold_nil (n : ℕ) : decFold n [] = n := rfl

theorem decFold_cons (n c : ℕ) (cs : List ℕ) :
    decFold n (c :: cs) = decFold (n * 10 + (c - 48)) cs := rfl

theorem decFold_append (n : ℕ) (xs ys : List ℕ) :
    decFold n (xs ++ ys) = decFold (decFold n xs) ys := by
  simp [decFold, List.foldl_append]

theorem le_decFold (ds : List ℕ) : ∀ n, n ≤ decFold n ds := by
  induction ds with
  | nil => intro n; exact le_refl n
  | cons c cs ih =>
    intro n
    rw [decFold_cons]
    have := ih (n * 10 + (c - 48))
    omega

theorem formatBits_lt (u : ℕ) (h : u < 10) : formatBits u = [48 + u] := by
  rw [formatBits]; simp [h]

theorem formatBits_ge (u : ℕ) (h : ¬ u < 10) :
    formatBits u = formatBits (u / 10) ++ [48 + u % 10] := by
  rw [formatBits]; simp [h]

theorem formatBits_ne_nil (u : ℕ) : formatBits u ≠ [] := by
  by_cases h : u < 10
  · rw [formatBits_lt u h]; simp
  · rw [formatBits_ge u h]; simp

theorem formatBits_digits (u : ℕ) : ∀ c ∈ formatBits u, isDigit c = true := by
  induction u using Nat.strong_induction_on with
  | _ u ih =>
    intro c hc
    by_cases h : u < 10
    · rw [formatBits_lt u h] at hc
      simp at hc
      rw [isDigit_iff]; omega
    · rw [formatBits_ge u h] at hc
      rcases List.mem_append.mp hc with hc | hc
      · exact ih (u / 10) (by omega) c hc
      · simp at hc
        rw [isDigit_iff]; omega

theorem decimalValue_formatBits (u : ℕ) : decimalValue (formatBits u) = u := by
  induction u using Nat.strong_induction_on with
  | _ u ih =>
    by_cases h : u < 10
    · rw [formatBits_lt u h]; simp [decimalValue, decFold]
    · rw [formatBits_ge u h]
      unfold decimalValue at ih ⊢
      rw [decFold_append, ih (u / 10) (by omega), decFold_cons, decFold_nil]
      omega

theorem formatBits_head (u : ℕ) : (formatBits u).head? = some 48 → formatBits u = [48] := by
  induction u using Nat.strong_induction_on with
  | _ u ih =>
    by_cases h : u < 10
    · rw [formatBits_lt u h]
      intro h0
      simp at h0
      simp [h0]
    · rw [formatBits_ge u h]
      intro h0
      have hne := formatBits_ne_nil (u / 10)
      have h1 : (formatBits (u / 10)).head? = some 48 := by
        cases hf : formatBits (u / 10) with
        | nil => exact absurd hf hne
        | cons x xs => rw [hf] at h0; simpa using h0
      have h2 := ih (u / 10) (by omega) h1
      have h3 := decimalValue_formatBits (u / 10)
      rw [h2] at h3
      simp [decimalValue, decFold] at h3
      omega

theorem formatBits_isDigits (u : ℕ) : IsDigits (formatBits u) :=
  ⟨formatBits_ne_nil u, formatBits_digits u⟩

theorem parseUintLoop_digits (maxVal : ℕ) (hmax : maxVal < 2 ^ 64) (ds : List ℕ)
    (hds : ∀ c ∈ ds, isDigit c = true) :
    ∀ n, n ≤ maxVal → parseUintLoop maxVal ds n =
      if decFold n ds ≤ maxVal then (decFold n ds, none) else (maxVal, some NumErr.ErrRange) := by
  induction ds with
  | nil =>
    intro n hn
    simp [parseUintLoop, decFold_nil, hn]
  | cons c cs ih =>
    intro n hn
    have hc := (isDigit_iff c).mp (hds c (List.mem_cons_self c cs))
    have ih' := ih (fun x hx => hds x (List.mem_cons_of_mem c hx)) (n * 10 + (c - 48))
    have hmono := le_decFold cs (n * 10 + (c - 48))
    rw [decFold_cons]
    simp only [parseUintLoop, maxUint64]
    rw [if_pos hc]
    simp only
    norm_num at hmax ⊢
    rw [if_neg (by omega)]
    by_cases h1 : 1844674407370955162 ≤ n
    · rw [if_pos h1, if_neg (by omega)]
    · rw [if_neg h1]
      by_cases h2 : (n * 10 + (c - 48)) % 18446744073709551616 < n * 10 % 18446744073709551616 ∨
          maxVal < (n * 10 + (c - 48)) % 18446744073709551616
      · rw [if_pos h2, if_neg (by omega)]
      · rw [if_neg h2]
        have h3 : (n * 10 + (c - 48)) % 18446744073709551616 = n * 10 + (c - 48) := by omega
        rw [h3]
        exact ih' (by omega)

theorem parseUintLoop_ok_digits (maxVal : ℕ) (s : List ℕ) :
    ∀ n, (parseUintLoop maxVal s n).2 = none → ∀ c ∈ s, isDigit c = true := by
  induction s with
  | nil => intro n _ c hc; simp at hc
  | cons c cs ih =>
    intro n h x hx
    simp only [parseUintLoop] at h
    by_cases hc : 48 ≤ c ∧ c ≤ 57
    · rw [if_pos hc] at h
      simp only at h
      rw [if_neg (by omega)] at h
      split at h
      · simp at h
      · split at h
        · simp at h
        · rcases List.mem_cons.mp hx with hx | hx
          · rw [hx]; exact (isDigit_iff c).mpr hc
          · exact ih _ h x hx
    · rw [if_neg hc] at h
      by_cases hl : 97 ≤ lower c ∧ lower c ≤ 122
      · rw [if_pos hl] at h
        simp only at h
        rw [if_pos (by omega)] at h
        simp at h
      · rw [if_neg hl] at h
        simp at h

theorem parseUintLoop_range (maxVal : ℕ) (s : List ℕ) :
    ∀ n, (parseUintLoop maxVal s n).2 = some NumErr.ErrRange → (parseUintLoop maxVal s n).1 = maxVal := by
  induction s with
  | nil => intro n h; simp [parseUintLoop] at h
  | cons c cs ih =>
    intro n h
    simp only [parseUintLoop] at h ⊢
    split at h
    · simp at h
    · split
      · rename_i h1; rw [if_pos h1] at h; simp at h
      · split
        · rfl
        · split
          · rfl
          · rename_i h1 h2 h3
            rw [if_neg h1, if_neg h2, if_neg h3] at h
            exact ih _ h



theorem ParseUint_digits (a : Arch) (ds : List ℕ) (b w : ℕ) (hds : IsDigits ds)
    (hw : (if b = 0 then IntSize a else b) = w) (h64 : w ≤ 64) :
    ParseUint a ds b =
      if decimalValue ds ≤ 2 ^ w - 1 then (decimalValue ds, none)
      else (2 ^ w - 1, some NumErr.ErrRange) := by
  unfold ParseUint
  rw [if_neg hds.1]
  simp only [hw]
  have hlt : 2 ^ w - 1 < 2 ^ 64 := by
    have : 2 ^ w ≤ 2 ^ 64 := Nat.pow_le_pow_right (by norm_num) h64
    have : 0 < 2 ^ w := Nat.two_pow_pos w
    omega
  exact parseUintLoop_digits (2 ^ w - 1) hlt ds hds.2 0 (Nat.zero_le _)

theorem int64_natCast (n : ℕ) (h : n < 2 ^ 63) : int64 (n : ℤ) = n := by
  apply int64_of_fits
  unfold fitsBits
  norm_num at h ⊢
  omega

theorem int64_neg_int64_natCast (n : ℕ) (h : n ≤ 2 ^ 63) : int64 (-(int64 (n : ℤ))) = -(n : ℤ) := by
  unfold int64 wrapSigned
  norm_num at h ⊢
  omega



/-- The range check that ends `ParseInt`, on what `ParseUint` returns for a
digit string denoting `dv`. -/
theorem ParseInt_tail (neg : Bool) (dv w : ℕ) (hw : w = 32 ∨ w = 64)
    (r : ℕ × Option NumErr)
    (hr : r = if dv ≤ 2 ^ w - 1 then (dv, none) else (2 ^ w - 1, some NumErr.ErrRange)) :
    (if r.2 = some NumErr.ErrSyntaxKind then ((0 : ℤ), some NumErr.ErrSyntaxKind)
      else
        if neg = false ∧ r.1 ≥ 2 ^ (w - 1) then ((((2 ^ (w - 1) : ℕ) - 1 : ℕ) : ℤ), some NumErr.ErrRange)
        else if neg = true ∧ r.1 > 2 ^ (w - 1) then (-(((2 ^ (w - 1) : ℕ)) : ℤ), some NumErr.ErrRange)
        else (if neg = true then int64 (-(int64 (r.1 : ℤ))) else int64 (r.1 : ℤ), none)) =
    if neg = true then
      (if dv ≤ 2 ^ (w - 1) then (-(dv : ℤ), none) else (-(((2 ^ (w - 1) : ℕ)) : ℤ), some NumErr.ErrRange))
    else
      (if dv < 2 ^ (w - 1) then ((dv : ℤ), none) else ((((2 ^ (w - 1) : ℕ) - 1 : ℕ) : ℤ), some NumErr.ErrRange)) := by
  have hp : (2 : ℕ) ^ (w - 1) ≤ 2 ^ 63 ∧ 2 ^ (w - 1) < 2 ^ w - 1 := by
    rcases hw with rfl | rfl <;> norm_num
  obtain ⟨hp1, hp2⟩ := hp
  by_cases hdv : dv ≤ 2 ^ w - 1
  · rw [if_pos hdv] at hr
    subst hr
    rw [if_neg (by simp)]
    cases neg
    · simp only [true_and, Bool.false_eq_true, false_and, if_false]
      by_cases h1 : dv < 2 ^ (w - 1)
      · rw [if_neg (by omega), if_pos h1, int64_natCast dv (by omega)]
      · rw [if_pos (by omega), if_neg h1]
    · simp only [true_and, Bool.true_eq_false, false_and, if_false, if_true]
      by_cases h1 : dv ≤ 2 ^ (w - 1)
      · rw [if_neg (by omega), if_pos h1, int64_neg_int64_natCast dv (by omega)]
      · rw [if_pos (by omega), if_neg h1]
  · rw [if_neg hdv] at hr
    subst hr
    rw [if_neg (by simp)]
    cases neg
    · simp only [true_and, Bool.false_eq_true, false_and, if_false]
      rw [if_pos (by omega), if_neg (by omega)]
    · simp only [true_and, Bool.true_eq_false, false_and, if_false, if_true]
      rw [if_pos (by omega), if_neg (by omega)]



theorem ParseInt_cons (a : Arch) (c : ℕ) (rest : List ℕ) (b : ℕ) :
    ParseInt a (c :: rest) b =
      (if (ParseUint a (if c = 43 then rest else if c = 45 then rest else c :: rest) b).2 =
          some NumErr.ErrSyntaxKind then ((0 : ℤ), some NumErr.ErrSyntaxKind)
      else
        if (decide (c ≠ 43) && decide (c = 45)) = false ∧
            (ParseUint a (if c = 43 then rest else if c = 45 then rest else c :: rest) b).1 ≥
              2 ^ ((if b = 0 then IntSize a else b) - 1) then
          ((((2 ^ ((if b = 0 then IntSize a else b) - 1) : ℕ) - 1 : ℕ) : ℤ), some NumErr.ErrRange)
        else if (decide (c ≠ 43) && decide (c = 45)) = true ∧
            (ParseUint a (if c = 43 then rest else if c = 45 then rest else c :: rest) b).1 >
              2 ^ ((if b = 0 then IntSize a else b) - 1) then
          (-(((2 ^ ((if b = 0 then IntSize a else b) - 1) : ℕ)) : ℤ), some NumErr.ErrRange)
        else
          (if (decide (c ≠ 43) && decide (c = 45)) = true then
              int64 (-(int64 ((ParseUint a (if c = 43 then rest else if c = 45 then rest
                else c :: rest) b).1 : ℤ)))
            else int64 ((ParseUint a (if c = 43 then rest else if c = 45 then rest
                else c :: rest) b).1 : ℤ), none)) := rfl

theorem ParseInt_unsigned (a : Arch) (ds : List ℕ) (b w : ℕ) (hds : IsDigits ds)
    (hb : (if b = 0 then IntSize a else b) = w) (hw : w = 32 ∨ w = 64) :
    ParseInt a ds b =
      if decimalValue ds < 2 ^ (w - 1) then ((decimalValue ds : ℤ), none)
      else ((((2 ^ (w - 1) : ℕ) - 1 : ℕ) : ℤ), some NumErr.ErrRange) := by
  obtain ⟨hne, hd⟩ := hds
  cases ds with
  | nil => exact absurd rfl hne
  | cons c rest =>
    have hc := (isDigit_iff c).mp (hd c (List.mem_cons_self c rest))
    have h43 : c ≠ 43 := by omega
    have h45 : c ≠ 45 := by omega
    have hu := ParseUint_digits a (c :: rest) b w ⟨hne, hd⟩ hb (by omega)
    have ht := ParseInt_tail false (decimalValue (c :: rest)) w hw _ hu
    rw [ParseInt_cons]
    simp only [h43, h45, if_false, hb, decide_False, Bool.and_false]
    simpa using ht

theorem ParseInt_plus (a : Arch) (ds : List ℕ) (b w : ℕ) (hds : IsDigits ds)
    (hb : (if b = 0 then IntSize a else b) = w) (hw : w = 32 ∨ w = 64) :
    ParseInt a (43 :: ds) b =
      if decimalValue ds < 2 ^ (w - 1) then ((decimalValue ds : ℤ), none)
      else ((((2 ^ (w - 1) : ℕ) - 1 : ℕ) : ℤ), some NumErr.ErrRange) := by
  have hu := ParseUint_digits a ds b w hds hb (by omega)
  have ht := ParseInt_tail false (decimalValue ds) w hw _ hu
  rw [ParseInt_cons]
  simp only [if_true, hb, ne_eq, not_true_eq_false, decide_False, Bool.false_and]
  simpa using ht

theorem ParseInt_minus (a : Arch) (ds : List ℕ) (b w : ℕ) (hds : IsDigits ds)
    (hb : (if b = 0 then IntSize a else b) = w) (hw : w = 32 ∨ w = 64) :
    ParseInt a (45 :: ds) b =
      if decimalValue ds ≤ 2 ^ (w - 1) then (-(decimalValue ds : ℤ), none)
      else (-(((2 ^ (w - 1) : ℕ)) : ℤ), some NumErr.ErrRange) := by
  have hu := ParseUint_digits a ds b w hds hb (by omega)
  have ht := ParseInt_tail true (decimalValue ds) w hw _ hu
  rw [ParseInt_cons]
  have e1 : (45 : ℕ) ≠ 43 := by decide
  simp only [e1, if_false, if_true, hb, ne_eq, not_false_eq_true, decide_True, Bool.and_self]
  simpa using ht



theorem ParseUint_ok (a : Arch) (s : List ℕ) (b : ℕ) (h : (ParseUint a s b).2 = none) :
    IsDigits s := by
  unfold ParseUint at h
  by_cases hs : s = []
  · rw [if_pos hs] at h; simp at h
  · rw [if_neg hs] at h
    exact ⟨hs, parseUintLoop_ok_digits _ s 0 h⟩

theorem ParseUint_range (a : Arch) (s : List ℕ) (b : ℕ)
    (h : (ParseUint a s b).2 = some NumErr.ErrRange) :
    (ParseUint a s b).1 = 2 ^ (if b = 0 then IntSize a else b) - 1 := by
  unfold ParseUint at h ⊢
  by_cases hs : s = []
  · rw [if_pos hs] at h; simp at h
  · rw [if_neg hs] at h ⊢
    exact parseUintLoop_range _ s 0 h

theorem ParseInt_ok_shape (a : Arch) (s : List ℕ) (b w : ℕ)
    (hb : (if b = 0 then IntSize a else b) = w) (hw : w = 32 ∨ w = 64)
    (h : (ParseInt a s b).2 = none) :
    ∃ ds, IsDigits ds ∧ (s = ds ∨ s = 43 :: ds ∨ s = 45 :: ds) := by
  cases s with
  | nil => simp [ParseInt] at h
  | cons c rest =>
    rw [ParseInt_cons] at h
    have hp : (2 : ℕ) ^ (w - 1) < 2 ^ w - 1 := by
      rcases hw with rfl | rfl <;> norm_num
    have key : (ParseUint a (if c = 43 then rest else if c = 45 then rest else c :: rest) b).2
        = none := by
      cases hr : (ParseUint a (if c = 43 then rest else if c = 45 then rest else c :: rest) b).2 with
      | none => rfl
      | some e =>
        exfalso
        cases e with
        | ErrSyntaxKind => rw [hr] at h; simp at h
        | ErrRange =>
          have hv := ParseUint_range a _ b hr
          rw [hb] at hv
          rw [hr, hv, hb] at h
          rw [if_neg (by simp)] at h
          cases hneg : (decide (c ≠ 43) && decide (c = 45))
          · rw [hneg] at h
            rw [if_pos ⟨rfl, by omega⟩] at h
            simp at h
          · rw [hneg] at h
            rw [if_neg (by simp), if_pos ⟨rfl, by omega⟩] at h
            simp at h
    have hd := ParseUint_ok a _ b key
    by_cases h43 : c = 43
    · rw [if_pos h43] at hd
      exact ⟨rest, hd, Or.inr (Or.inl (by rw [h43]))⟩
    · rw [if_neg h43] at hd
      by_cases h45 : c = 45
      · rw [if_pos h45] at hd
        exact ⟨rest, hd, Or.inr (Or.inr (by rw [h45]))⟩
      · rw [if_neg h45] at hd
        exact ⟨c :: rest, hd, Or.inl rfl⟩

/-- Go `ParseInt` succeeds exactly on the optionally signed decimal integers of
the requested width, and returns the integer denoted. -/
theorem ParseInt_ok_iff (a : Arch) (s : List ℕ) (b w : ℕ) (v : ℤ)
    (hb : (if b = 0 then IntSize a else b) = w) (hw : w = 32 ∨ w = 64) :
    ParseInt a s b = (v, none) ↔ IsSignedDecimal s v ∧ fitsBits w v := by
  have hcast : (((2 : ℕ) ^ (w - 1) : ℕ) : ℤ) = (2 : ℤ) ^ (w - 1) := by push_cast; rfl
  constructor
  · intro h
    have h2 : (ParseInt a s b).2 = none := by rw [h]
    obtain ⟨ds, hds, hs⟩ := ParseInt_ok_shape a s b w hb hw h2
    rcases hs with hs | hs | hs <;> subst hs
    · rw [ParseInt_unsigned a s b w hds hb hw] at h
      split_ifs at h with h1
      · simp only [Prod.mk.injEq, and_true] at h
        refine ⟨⟨s, hds, Or.inl ⟨rfl, h.symm⟩⟩, ?_⟩
        unfold fitsBits
        rw [← h, ← hcast]
        constructor
        · have : (0 : ℤ) ≤ ((2 ^ (w - 1) : ℕ) : ℤ) := Int.natCast_nonneg _
          have : (0 : ℤ) ≤ (decimalValue s : ℤ) := Int.natCast_nonneg _
          omega
        · exact_mod_cast h1
      · simp at h
    · rw [ParseInt_plus a ds b w hds hb hw] at h
      split_ifs at h with h1
      · simp only [Prod.mk.injEq, and_true] at h
        refine ⟨⟨ds, hds, Or.inr (Or.inl ⟨rfl, h.symm⟩)⟩, ?_⟩
        unfold fitsBits
        rw [← h, ← hcast]
        constructor
        · have : (0 : ℤ) ≤ ((2 ^ (w - 1) : ℕ) : ℤ) := Int.natCast_nonneg _
          have : (0 : ℤ) ≤ (decimalValue ds : ℤ) := Int.natCast_nonneg _
          omega
        · exact_mod_cast h1
      · simp at h
    · rw [ParseInt_minus a ds b w hds hb hw] at h
      split_ifs at h with h1
      · simp only [Prod.mk.injEq, and_true] at h
        refine ⟨⟨ds, hds, Or.inr (Or.inr ⟨rfl, h.symm⟩)⟩, ?_⟩
        unfold fitsBits
        rw [← h, ← hcast]
        have h1' : (decimalValue ds : ℤ) ≤ ((2 ^ (w - 1) : ℕ) : ℤ) := by exact_mod_cast h1
        have : (0 : ℤ) ≤ (decimalValue ds : ℤ) := Int.natCast_nonneg _
        have hpos : (0 : ℤ) < ((2 ^ (w - 1) : ℕ) : ℤ) := by
          exact_mod_cast Nat.two_pow_pos (w - 1)
        constructor <;> omega
      · simp at h
  · rintro ⟨⟨ds, hds, hs⟩, hfit⟩
    unfold fitsBits at hfit
    rw [← hcast] at hfit
    rcases hs with ⟨hs, rfl⟩ | ⟨rfl, rfl⟩ | ⟨rfl, rfl⟩
    · rw [hs, ParseInt_unsigned a ds b w hds hb hw, if_pos (by exact_mod_cast hfit.2)]
    · rw [ParseInt_plus a ds b w hds hb hw, if_pos (by exact_mod_cast hfit.2)]
    · rw [ParseInt_minus a ds b w hds hb hw, if_pos (by have := hfit.1; omega)]

/-! ## `strconv.FormatInt` in range and the JSON number scanner -/

theorem FormatInt_of_fits (i : ℤ) (h : fitsBits 64 i) :
    FormatInt i = if i < 0 then 45 :: formatBits i.natAbs else formatBits i.natAbs := by
  unfold fitsBits at h
  norm_num at h
  unfold FormatInt uint64
  by_cases hi : i < 0
  · simp only [hi, if_true]
    congr 2
    norm_num
    omega
  · simp only [hi, if_false]
    congr 1
    norm_num
    omega

theorem dropWhile_append_left (p : ℕ → Bool) (pre l : List ℕ) (h : ∀ c ∈ pre, p c = true) :
    (pre ++ l).dropWhile p = l.dropWhile p := by
  induction pre with
  | nil => rfl
  | cons c cs ih =>
    have hc := h c (List.mem_cons_self c cs)
    simp only [List.cons_append, List.dropWhile_cons, hc, if_true]
    exact ih (fun x hx => h x (List.mem_cons_of_mem c hx))

theorem takeWhile_append_stop (p : ℕ → Bool) (ds post : List ℕ) (h : ∀ c ∈ ds, p c = true)
    (hpost : ∀ c ∈ post.head?, p c = false) :
    (ds ++ post).takeWhile p = ds ∧ (ds ++ post).dropWhile p = post := by
  induction ds with
  | nil =>
    cases post with
    | nil => simp
    | cons c cs =>
      have hc := hpost c (by simp)
      simp [List.takeWhile_cons, List.dropWhile_cons, hc]
  | cons c cs ih =>
    have hc := h c (List.mem_cons_self c cs)
    have ih' := ih (fun x hx => h x (List.mem_cons_of_mem c hx))
    simp only [List.cons_append, List.takeWhile_cons, List.dropWhile_cons, hc, if_true]
    exact ⟨by rw [ih'.1], ih'.2⟩

theorem space_not_digit (c : ℕ) (h : isSpace c = true) : isDigit c = false := by
  rw [isSpace_iff] at h
  cases hd : isDigit c with
  | false => rfl
  | true => rw [isDigit_iff] at hd; omega

theorem scanFrac_spaces (post : List ℕ) (h : ∀ c ∈ post, isSpace c = true) :
    scanFrac post = some ([], post) := by
  cases post with
  | nil => rfl
  | cons c cs =>
    have hc := (isSpace_iff c).mp (h c (List.mem_cons_self c cs))
    simp only [scanFrac]
    rw [if_neg (by omega)]

theorem scanExp_spaces (post : List ℕ) (h : ∀ c ∈ post, isSpace c = true) :
    scanExp post = some ([], post) := by
  cases post with
  | nil => rfl
  | cons c cs =>
    have hc := (isSpace_iff c).mp (h c (List.mem_cons_self c cs))
    simp only [scanExp]
    rw [if_neg (by omega)]

theorem scanIntPart_digits (ds post : List ℕ) (hds : IsDigits ds)
    (hz : ds.head? = some 48 → ds = [48]) (h : ∀ c ∈ post, isSpace c = true) :
    scanIntPart (ds ++ post) = some (ds, post) := by
  obtain ⟨hne, hd⟩ := hds
  cases ds with
  | nil => exact absurd rfl hne
  | cons c cs =>
    have hc := (isDigit_iff c).mp (hd c (List.mem_cons_self c cs))
    simp only [List.cons_append, scanIntPart]
    by_cases h0 : c = 48
    · have := hz (by simp [h0])
      simp only [List.cons.injEq] at this
      rw [if_pos h0, this.2, h0]
      rfl
    · rw [if_neg h0, if_pos (by omega)]
      have hstop : ∀ x ∈ post.head?, isDigit x = false := by
        intro x hx
        cases post with
        | nil => simp at hx
        | cons y ys =>
          simp at hx
          subst hx
          exact space_not_digit _ (h _ (List.mem_cons_self _ _))
      have := takeWhile_append_stop isDigit cs post
        (fun x hx => hd x (List.mem_cons_of_mem c hx)) hstop
      rw [this.1, this.2]

theorem scanNumber_unsigned (ds post : List ℕ) (hds : IsDigits ds)
    (hz : ds.head? = some 48 → ds = [48]) (h : ∀ c ∈ post, isSpace c = true) :
    scanNumber (ds ++ post) = some (ds, post) := by
  have hi := scanIntPart_digits ds post hds hz h
  obtain ⟨hne, hd⟩ := hds
  cases ds with
  | nil => exact absurd rfl hne
  | cons c cs =>
    have hc := (isDigit_iff c).mp (hd c (List.mem_cons_self c cs))
    have h45 : c ≠ 45 := by omega
    simp only [scanNumber, List.cons_append, h45, if_false]
    rw [← List.cons_append, hi]
    simp only [scanFrac_spaces post h, scanExp_spaces post h]
    simp

theorem scanNumber_minus (ds post : List ℕ) (hds : IsDigits ds)
    (hz : ds.head? = some 48 → ds = [48]) (h : ∀ c ∈ post, isSpace c = true) :
    scanNumber (45 :: ds ++ post) = some (45 :: ds, post) := by
  have hi := scanIntPart_digits ds post hds hz h
  simp only [scanNumber, List.cons_append, if_true]
  rw [hi]
  simp only [scanFrac_spaces post h, scanExp_spaces post h]
  simp

theorem dropWhile_nonspace (c : ℕ) (t : List ℕ) (h : isSpace c = false) :
    (c :: t).dropWhile isSpace = c :: t := by
  simp [List.dropWhile_cons, h]

theorem Unmarshal_integer (a : Arch) (data : List ℕ) (v x : ℤ) (h : IsJSONInteger data v) :
    Unmarshal a data x = (v, none) := by
  obtain ⟨pre, lit, post, rfl, hpre, hpost, ⟨ds, hds, hz, hlit⟩, hfit⟩ := h
  have hb : (if (64 : ℕ) = 0 then IntSize a else 64) = 64 := by simp
  have hds' := hds
  obtain ⟨hne, hd⟩ := hds
  cases ds with
  | nil => exact absurd rfl hne
  | cons c cs =>
    have hc := (isDigit_iff c).mp (hd c (List.mem_cons_self c cs))
    have hcd : isDigit c = true := hd c (List.mem_cons_self c cs)
    have hcs : isSpace c = false := by
      cases hs : isSpace c with
      | false => rfl
      | true => rw [isSpace_iff] at hs; omega
    rcases hlit with ⟨rfl, rfl⟩ | ⟨rfl, rfl⟩
    · have hp : ParseInt a (c :: cs) 64 = ((decimalValue (c :: cs) : ℤ), none) :=
        (ParseInt_ok_iff a _ 64 64 _ hb (Or.inr rfl)).mpr ⟨⟨c :: cs, hds', Or.inl ⟨rfl, rfl⟩⟩, hfit⟩
      have hsn := scanNumber_unsigned (c :: cs) post hds' hz hpost
      unfold Unmarshal
      rw [List.append_assoc, dropWhile_append_left isSpace pre _ hpre]
      rw [List.cons_append, dropWhile_nonspace c _ hcs]
      simp only
      rw [if_neg (by omega), if_pos (Or.inr hcd)]
      rw [← List.cons_append, hsn]
      simp only
      rw [if_pos (List.all_eq_true.mpr hpost), hp]
      simp
    · have hp : ParseInt a (45 :: c :: cs) 64 = (-(decimalValue (c :: cs) : ℤ), none) :=
        (ParseInt_ok_iff a _ 64 64 _ hb (Or.inr rfl)).mpr ⟨⟨c :: cs, hds', Or.inr (Or.inr ⟨rfl, rfl⟩)⟩, hfit⟩
      have hsn := scanNumber_minus (c :: cs) post hds' hz hpost
      have h45 : isSpace 45 = false := by decide
      have hall : post.all isSpace = true := List.all_eq_true.mpr hpost
      unfold Unmarshal
      rw [List.append_assoc, dropWhile_append_left isSpace pre _ hpre]
      rw [List.cons_append, dropWhile_nonspace 45 _ h45]
      simp only [List.cons_append] at hsn ⊢
      rw [if_neg (by decide), if_pos (Or.inl trivial), hsn]
      simp only
      rw [if_pos hall, hp]
      simp

theorem Unmarshal_null (a : Arch) (data : List ℕ) (x : ℤ) (h : IsJSONNull data) :
    Unmarshal a data x = (x, none) := by
  obtain ⟨pre, post, rfl, hpre, hpost⟩ := h
  have h110 : isSpace 110 = false := by decide
  unfold Unmarshal
  rw [List.append_assoc, dropWhile_append_left isSpace pre _ hpre]
  rw [List.cons_append, dropWhile_nonspace 110 _ h110]
  simp only
  rw [if_pos trivial, if_pos]
  refine ⟨by simp, ?_⟩
  simpa using hpost

theorem scanIntPart_some (s ip r : List ℕ) (h : scanIntPart s = some (ip, r)) :
    s = ip ++ r ∧ IsDigits ip ∧ (ip.head? = some 48 → ip = [48]) := by
  cases s with
  | nil => simp [scanIntPart] at h
  | cons c t =>
    simp only [scanIntPart] at h
    by_cases h0 : c = 48
    · rw [if_pos h0] at h
      simp only [Option.some.injEq, Prod.mk.injEq] at h
      obtain ⟨rfl, rfl⟩ := h
      subst h0
      refine ⟨rfl, ⟨by simp, ?_⟩, fun _ => rfl⟩
      intro x hx
      simp at hx
      subst hx
      decide
    · rw [if_neg h0] at h
      by_cases h1 : 49 ≤ c ∧ c ≤ 57
      · rw [if_pos h1] at h
        simp only [Option.some.injEq, Prod.mk.injEq] at h
        obtain ⟨rfl, rfl⟩ := h
        refine ⟨by simp [List.takeWhile_append_dropWhile], ⟨by simp, ?_⟩, ?_⟩
        · intro x hx
          rcases List.mem_cons.mp hx with hx | hx
          · subst hx; rw [isDigit_iff]; omega
          · exact (List.mem_takeWhile_imp hx)
        · intro hh
          simp at hh
          exact absurd hh h0
      · rw [if_neg h1] at h
        simp at h

theorem scanFrac_some (s fp r : List ℕ) (h : scanFrac s = some (fp, r)) :
    s = fp ++ r ∧ (fp = [] ∨ 46 ∈ fp) := by
  cases s with
  | nil =>
    simp only [scanFrac, Option.some.injEq, Prod.mk.injEq] at h
    obtain ⟨rfl, rfl⟩ := h
    exact ⟨rfl, Or.inl rfl⟩
  | cons c t =>
    simp only [scanFrac] at h
    by_cases h0 : c = 46
    · rw [if_pos h0] at h
      split_ifs at h
      simp only [Option.some.injEq, Prod.mk.injEq] at h
      obtain ⟨rfl, rfl⟩ := h
      exact ⟨by simp [h0, List.takeWhile_append_dropWhile], Or.inr (by simp)⟩
    · rw [if_neg h0] at h
      simp only [Option.some.injEq, Prod.mk.injEq] at h
      obtain ⟨rfl, rfl⟩ := h
      exact ⟨rfl, Or.inl rfl⟩

theorem scanExp_some (s ep r : List ℕ) (h : scanExp s = some (ep, r)) :
    s = ep ++ r ∧ (ep = [] ∨ 101 ∈ ep ∨ 69 ∈ ep) := by
  cases s with
  | nil =>
    simp only [scanExp, Option.some.injEq, Prod.mk.injEq] at h
    obtain ⟨rfl, rfl⟩ := h
    exact ⟨rfl, Or.inl rfl⟩
  | cons c t =>
    simp only [scanExp] at h
    by_cases h0 : c = 101 ∨ c = 69
    · rw [if_pos h0] at h
      split_ifs at h
      simp only [Option.some.injEq, Prod.mk.injEq] at h
      obtain ⟨rfl, rfl⟩ := h
      refine ⟨?_, Or.inr ?_⟩
      · cases t with
        | nil => simp
        | cons s u =>
          by_cases hs : s = 43 ∨ s = 45
          · simp [hs, List.takeWhile_append_dropWhile]
          · simp [hs, List.takeWhile_append_dropWhile]
      · rcases h0 with h0 | h0
        · exact Or.inl (by simp [h0])
        · exact Or.inr (by simp [h0])
    · rw [if_neg h0] at h
      simp only [Option.some.injEq, Prod.mk.injEq] at h
      obtain ⟨rfl, rfl⟩ := h
      exact ⟨rfl, Or.inl rfl⟩

theorem scanNumber_some (s lit rest : List ℕ) (h : scanNumber s = some (lit, rest)) :
    s = lit ++ rest ∧ ∃ sg ip fp ep, lit = sg ++ ip ++ fp ++ ep ∧ (sg = [] ∨ sg = [45]) ∧
      IsDigits ip ∧ (ip.head? = some 48 → ip = [48]) ∧ (fp = [] ∨ 46 ∈ fp) ∧
      (ep = [] ∨ 101 ∈ ep ∨ 69 ∈ ep) := by
  unfold scanNumber at h
  generalize hsg : (match s with
    | [] => (([] : List ℕ), ([] : List ℕ))
    | c :: t => if c = 45 then ([45], t) else ([], c :: t)) = sg at h
  have hs : s = sg.1 ++ sg.2 ∧ (sg.1 = [] ∨ sg.1 = [45]) := by
    cases s with
    | nil => simp at hsg; subst hsg; simp
    | cons c t =>
      simp only at hsg
      by_cases hc : c = 45
      · rw [if_pos hc] at hsg; subst hsg; simp [hc]
      · rw [if_neg hc] at hsg; subst hsg; simp
  simp only at h
  cases hi : scanIntPart sg.2 with
  | none => rw [hi] at h; simp at h
  | some pi =>
    obtain ⟨ip, r1⟩ := pi
    rw [hi] at h
    simp only at h
    cases hf : scanFrac r1 with
    | none => rw [hf] at h; simp at h
    | some pf =>
      obtain ⟨fp, r2⟩ := pf
      rw [hf] at h
      simp only at h
      cases he : scanExp r2 with
      | none => rw [he] at h; simp at h
      | some pe =>
        obtain ⟨ep, r3⟩ := pe
        rw [he] at h
        simp only [Option.some.injEq, Prod.mk.injEq] at h
        obtain ⟨rfl, rfl⟩ := h
        obtain ⟨e1, hdig, hz⟩ := scanIntPart_some _ _ _ hi
        obtain ⟨e2, hfp⟩ := scanFrac_some _ _ _ hf
        obtain ⟨e3, hep⟩ := scanExp_some _ _ _ he
        refine ⟨?_, sg.1, ip, fp, ep, rfl, hs.2, hdig, hz, hfp, hep⟩
        rw [hs.1, e1, e2, e3]
        simp [List.append_assoc]

theorem ParseInt_ok_bytes (a : Arch) (s : List ℕ) (b w : ℕ)
    (hb : (if b = 0 then IntSize a else b) = w) (hw : w = 32 ∨ w = 64)
    (h : (ParseInt a s b).2 = none) : ∀ c ∈ s, isDigit c = true ∨ c = 43 ∨ c = 45 := by
  obtain ⟨ds, hds, hs⟩ := ParseInt_ok_shape a s b w hb hw h
  intro c hc
  rcases hs with rfl | rfl | rfl
  · exact Or.inl (hds.2 c hc)
  · rcases List.mem_cons.mp hc with hc | hc
    · exact Or.inr (Or.inl hc)
    · exact Or.inl (hds.2 c hc)
  · rcases List.mem_cons.mp hc with hc | hc
    · exact Or.inr (Or.inr hc)
    · exact Or.inl (hds.2 c hc)

theorem Unmarshal_ok (a : Arch) (data : List ℕ) (x : ℤ) (h : (Unmarshal a data x).2 = none) :
    (IsJSONNull data ∧ (Unmarshal a data x).1 = x) ∨ IsJSONInteger data (Unmarshal a data x).1 := by
  obtain ⟨pre, hpre, hsplit⟩ : ∃ pre : List ℕ, (∀ c ∈ pre, isSpace c = true) ∧
      data = pre ++ data.dropWhile isSpace :=
    ⟨data.takeWhile isSpace, fun c hc => List.mem_takeWhile_imp hc,
      (List.takeWhile_append_dropWhile isSpace data).symm⟩
  have hb : (if (64 : ℕ) = 0 then IntSize a else 64) = 64 := by simp
  unfold Unmarshal at h ⊢
  cases hs : data.dropWhile isSpace with
  | nil => rw [hs] at h; simp at h
  | cons c t =>
    rw [hs] at h hsplit
    simp only at h ⊢
    by_cases hn : c = 110
    · rw [if_pos hn] at h ⊢
      left
      by_cases hcond : t.take 3 = [117, 108, 108] ∧ (t.drop 3).all isSpace = true
      · rw [if_pos hcond]
        refine ⟨⟨pre, t.drop 3, ?_, hpre, ?_⟩, rfl⟩
        · have ht : t = [117, 108, 108] ++ t.drop 3 := by
            rw [← hcond.1]; exact (List.take_append_drop 3 t).symm
          rw [hsplit, hn]
          conv_lhs => rw [ht]
          simp
        · exact List.all_eq_true.mp hcond.2
      · rw [if_neg hcond] at h; simp at h
    · rw [if_neg hn] at h ⊢
      right
      by_cases hnum : c = 45 ∨ isDigit c = true
      · rw [if_pos hnum] at h ⊢
        cases hsn : scanNumber (c :: t) with
        | none => rw [hsn] at h; simp at h
        | some p =>
          obtain ⟨lit, rest⟩ := p
          rw [hsn] at h
          simp only at h ⊢
          by_cases hrest : rest.all isSpace = true
          · rw [if_pos hrest] at h ⊢
            by_cases hp : (ParseInt a lit 64).2 = none
            · rw [if_pos hp]
              simp only
              obtain ⟨hcat, sg, ip, fp, ep, hlit, hsg, hip, hz, hfp, hep⟩ :=
                scanNumber_some _ _ _ hsn
              have hbytes := ParseInt_ok_bytes a lit 64 64 hb (Or.inr rfl) hp
              have hfp0 : fp = [] := by
                rcases hfp with hfp | hfp
                · exact hfp
                · have := hbytes 46 (by rw [hlit]; simp [hfp])
                  exact absurd this (by decide)
              have hep0 : ep = [] := by
                rcases hep with hep | hep | hep
                · exact hep
                · have := hbytes 101 (by rw [hlit]; simp [hep])
                  exact absurd this (by decide)
                · have := hbytes 69 (by rw [hlit]; simp [hep])
                  exact absurd this (by decide)
              rw [hfp0, hep0, List.append_nil, List.append_nil] at hlit
              have hv : ParseInt a lit 64 = ((ParseInt a lit 64).1, none) := by
                rw [← hp]
              have hiff := (ParseInt_ok_iff a lit 64 64 _ hb (Or.inr rfl)).mp hv
              refine ⟨pre, lit, rest, ?_, hpre, List.all_eq_true.mp hrest, ?_,
                hiff.2⟩
              · rw [List.append_assoc, ← hcat]; exact hsplit
              · refine ⟨ip, hip, hz, ?_⟩
                rcases hsg with hsg | hsg
                · rw [hsg, List.nil_append] at hlit
                  left
                  refine ⟨hlit, ?_⟩
                  have hc := ParseInt_unsigned a ip 64 64 hip hb (Or.inr rfl)
                  rw [hlit] at hp ⊢
                  by_cases h1 : decimalValue ip < 2 ^ (64 - 1)
                  · rw [hc, if_pos h1]
                  · rw [hc, if_neg h1] at hp; simp at hp
                · rw [hsg] at hlit
                  have hlit' : lit = 45 :: ip := hlit
                  right
                  refine ⟨hlit', ?_⟩
                  have hc := ParseInt_minus a ip 64 64 hip hb (Or.inr rfl)
                  rw [hlit'] at hp ⊢
                  by_cases h1 : decimalValue ip ≤ 2 ^ (64 - 1)
                  · rw [hc, if_pos h1]
                  · rw [hc, if_neg h1] at hp; simp at hp
            · rw [if_neg hp] at h; simp at h
          · rw [if_neg hrest] at h; simp at h
      · rw [if_neg hnum] at h; simp at h

/-! ## The wrapper's JSON and text decoding -/

theorem not_null_and_integer (data : List ℕ) (v : ℤ) (hn : IsJSONNull data)
    (hi : IsJSONInteger data v) : False := by
  have h0 := Unmarshal_null Arch.bits64 data 0 hn
  have h1 := Unmarshal_null Arch.bits64 data 1 hn
  rw [Unmarshal_integer Arch.bits64 data v 0 hi] at h0
  rw [Unmarshal_integer Arch.bits64 data v 1 hi] at h1
  simp only [Prod.mk.injEq, and_true] at h0 h1
  omega

theorem isJSONNull_nullBytes : IsJSONNull [110, 117, 108, 108] :=
  ⟨[], [], rfl, by simp, by simp⟩

theorem bytesEqual_iff (x y : Bytes) : bytesEqual x y = true ↔ x.elems = y.elems := by
  simp [bytesEqual]

theorem UnmarshalJSON_of_integer (a : Arch) (i : null.Int) (data : Bytes) (v : ℤ)
    (h : IsJSONInteger data.elems v) :
    Int.UnmarshalJSON a i data = ({ Int := int a v, Valid := true, Set := true }, none) := by
  have hne : bytesEqual data NullBytes = false := by
    cases hb : bytesEqual data NullBytes with
    | false => rfl
    | true =>
      rw [bytesEqual_iff] at hb
      have hn : IsJSONNull data.elems := by rw [hb]; exact isJSONNull_nullBytes
      exact absurd h (fun hi => not_null_and_integer _ v hn hi)
  unfold Int.UnmarshalJSON
  simp only [hne, Unmarshal_integer a data.elems v 0 h]
  simp

theorem UnmarshalJSON_error_iff (a : Arch) (i : null.Int) (data : Bytes) :
    (Int.UnmarshalJSON a i data).2 ≠ none ↔
      ¬ (IsJSONNull data.elems ∨ ∃ v, IsJSONInteger data.elems v) := by
  constructor
  · intro herr hok
    rcases hok with hn | ⟨v, hv⟩
    · apply herr
      unfold Int.UnmarshalJSON
      cases hb : bytesEqual data NullBytes with
      | true => simp
      | false => simp [Unmarshal_null a data.elems 0 hn]
    · apply herr
      rw [UnmarshalJSON_of_integer a i data v hv]
  · intro hno herr
    apply hno
    unfold Int.UnmarshalJSON at herr
    cases hb : bytesEqual data NullBytes with
    | true =>
      left
      rw [bytesEqual_iff] at hb
      rw [hb]
      exact isJSONNull_nullBytes
    | false =>
      rw [hb] at herr
      simp only [Bool.false_eq_true, if_false] at herr
      cases hu : (Unmarshal a data.elems 0).2 with
      | some e => rw [hu] at herr; simp at herr
      | none =>
        rcases Unmarshal_ok a data.elems 0 hu with h | h
        · exact Or.inl h.1
        · exact Or.inr ⟨_, h⟩

/-- A `null` with white space around it is not the four bytes `null`: it goes
to `json.Unmarshal`, which accepts it and leaves `x` at 0, so the wrapper ends
up valid with the value 0. -/
theorem UnmarshalJSON_padded_null (a : Arch) (i : null.Int) (data : Bytes)
    (hn : IsJSONNull data.elems) (hne : data.elems ≠ [110, 117, 108, 108]) :
    Int.UnmarshalJSON a i data = ({ Int := 0, Valid := true, Set := true }, none) := by
  have hb : bytesEqual data NullBytes = false := by
    cases hb : bytesEqual data NullBytes with
    | false => rfl
    | true => rw [bytesEqual_iff] at hb; exact absurd hb hne
  have h0 : int a 0 = 0 := by cases a <;> simp [int, wrapSigned, IntSize]
  unfold Int.UnmarshalJSON
  simp only [hb, Unmarshal_null a data.elems 0 hn]
  simp [h0]

theorem FormatInt_literal (v : ℤ) (h : fitsBits 64 v) : IsJSONIntLiteral (FormatInt v) v := by
  rw [FormatInt_of_fits v h]
  refine ⟨formatBits v.natAbs, formatBits_isDigits _, formatBits_head _, ?_⟩
  rw [decimalValue_formatBits]
  by_cases hv : v < 0
  · right
    rw [if_pos hv]
    exact ⟨rfl, by omega⟩
  · left
    rw [if_neg hv]
    exact ⟨rfl, by omega⟩

theorem FormatInt_integer (v : ℤ) (h : fitsBits 64 v) : IsJSONInteger (FormatInt v) v :=
  ⟨[], FormatInt v, [], by simp, by simp, by simp, FormatInt_literal v h, h⟩

theorem intSize_cases (a : Arch) : IntSize a = 32 ∨ IntSize a = 64 := by
  cases a
  · exact Or.inl rfl
  · exact Or.inr rfl

theorem ParseInt_platform_iff (a : Arch) (s : List ℕ) (v : ℤ) :
    ParseInt a s 0 = (v, none) ↔ IsSignedDecimal s v ∧ fitsInt a v :=
  ParseInt_ok_iff a s 0 (IntSize a) v (by simp) (intSize_cases a)

theorem not_platformDecimal_of_error (a : Arch) (s : List ℕ)
    (h : (ParseInt a s 0).2 ≠ none) : ¬ IsPlatformDecimal a s := by
  rintro ⟨v, hv, hfit⟩
  rw [(ParseInt_platform_iff a s v).mpr ⟨hv, hfit⟩] at h
  exact h rfl

theorem platformDecimal_of_ok (a : Arch) (s : List ℕ) (h : (ParseInt a s 0).2 = none) :
    IsPlatformDecimal a s := by
  have hv : ParseInt a s 0 = ((ParseInt a s 0).1, none) := by rw [← h]
  exact ⟨_, (ParseInt_platform_iff a s _).mp hv⟩

/-! ## Claims -/

/-- C1: for every integer `v` that fits the platform `int`, `UnmarshalJSON` on
any wrapper with the bytes that `MarshalJSON` returns for `IntFrom(v)` returns
no error and leaves `Int = v`, `Valid = true` and `Set = true`. -/
theorem C1_json_round_trip (a : Arch) (i : null.Int) (v : ℤ) (hv : fitsInt a v) :
    (Int.MarshalJSON (IntFrom v)).2 = none ∧
    Int.UnmarshalJSON a i (Int.MarshalJSON (IntFrom v)).1 =
      ({ Int := v, Valid := true, Set := true }, none) := by
  have h64 := fitsBits64_of_fitsInt a v hv
  have hm : Int.MarshalJSON (IntFrom v) = (some (FormatInt v), none) := by
    simp [Int.MarshalJSON, IntFrom, NewInt, int64_of_fits v h64]
  rw [hm]
  refine ⟨rfl, ?_⟩
  have hi : IsJSONInteger (Bytes.elems (some (FormatInt v))) v := FormatInt_integer v h64
  rw [UnmarshalJSON_of_integer a i _ v hi, int_of_fitsInt a v hv]

/-- Witness of C1 at `v = -42` on a 32-bit platform, from a wrapper holding 7. -/
theorem C1_json_round_trip_witness :
    fitsInt Arch.bits32 (-42) ∧
    (Int.MarshalJSON (IntFrom (-42))).2 = none ∧
    Int.UnmarshalJSON Arch.bits32 { Int := 7, Valid := false, Set := false }
        (Int.MarshalJSON (IntFrom (-42))).1 =
      ({ Int := -42, Valid := true, Set := true }, none) :=
  ⟨by decide, C1_json_round_trip Arch.bits32 _ (-42) (by decide)⟩

/-- C2: for every prior wrapper state, `UnmarshalJSON` applied to exactly the
four bytes `null` returns no error and leaves `Valid = false`, `Int = 0` and
`Set = true`. -/
theorem C2_UnmarshalJSON_null (a : Arch) (i : null.Int) :
    Int.UnmarshalJSON a i (some [110, 117, 108, 108]) =
      ({ Int := 0, Valid := false, Set := true }, none) := by
  simp [Int.UnmarshalJSON, bytesEqual, NullBytes, Bytes.elems]

/-- C3: `MarshalJSON` never returns an error; for an invalid wrapper its output
is exactly the four bytes `null`; for a valid wrapper (whose `Int` is a value
of the platform `int`) its output is the base-10 ASCII form of `Int`: a `-`
exactly when `Int` is negative, then decimal digits denoting the magnitude,
with no leading zero, no quote and no white space. -/
theorem C3_MarshalJSON (a : Arch) (i : null.Int) :
    (Int.MarshalJSON i).2 = none ∧
    (i.Valid = false → (Int.MarshalJSON i).1 = some [110, 117, 108, 108]) ∧
    (i.Valid = true → fitsInt a i.Int →
      ∃ ds, IsDigits ds ∧ (ds.head? = some 48 → ds = [48]) ∧
        decimalValue ds = i.Int.natAbs ∧
        (Int.MarshalJSON i).1 = some (if i.Int < 0 then 45 :: ds else ds) ∧
        ∀ c ∈ (if i.Int < 0 then 45 :: ds else ds), c ≠ 34 ∧ isSpace c = false) := by
  refine ⟨?_, ?_, ?_⟩
  · unfold Int.MarshalJSON; split_ifs <;> rfl
  · intro hv
    simp [Int.MarshalJSON, hv, NullBytes]
  · intro hv hfit
    have h64 := fitsBits64_of_fitsInt a i.Int hfit
    refine ⟨formatBits i.Int.natAbs, formatBits_isDigits _, formatBits_head _,
      decimalValue_formatBits _, ?_, ?_⟩
    · simp only [Int.MarshalJSON, hv, Bool.true_eq_false, if_false, int64_of_fits _ h64,
        FormatInt_of_fits _ h64]
    · intro c hc
      have hd : isDigit c = true ∨ c = 45 := by
        split_ifs at hc
        · rcases List.mem_cons.mp hc with hc | hc
          · exact Or.inr hc
          · exact Or.inl (formatBits_digits _ c hc)
        · exact Or.inl (formatBits_digits _ c hc)
      have hs : isSpace c = false := by
        cases hsp : isSpace c with
        | false => rfl
        | true =>
          rw [isSpace_iff] at hsp
          rcases hd with hd | hd
          · rw [isDigit_iff] at hd; omega
          · omega
      refine ⟨?_, hs⟩
      rcases hd with hd | hd
      · rw [isDigit_iff] at hd; omega
      · omega

/-- Witness of C3 at the valid wrapper holding -120 on a 64-bit platform. -/
theorem C3_MarshalJSON_witness :
    fitsInt Arch.bits64 (-120) ∧
    ∃ ds, IsDigits ds ∧ (ds.head? = some 48 → ds = [48]) ∧
      decimalValue ds = (-120 : ℤ).natAbs ∧
      (Int.MarshalJSON { Int := -120, Valid := true, Set := true }).1 =
        some (if (-120 : ℤ) < 0 then 45 :: ds else ds) ∧
      ∀ c ∈ (if (-120 : ℤ) < 0 then 45 :: ds else ds), c ≠ 34 ∧ isSpace c = false :=
  ⟨by decide,
    (C3_MarshalJSON Arch.bits64 { Int := -120, Valid := true, Set := true }).2.2 rfl
      (by decide)⟩

/-- C4 as stated fails on a 32-bit platform: the bytes `4294967296` are a
valid JSON integer in 64-bit range, `UnmarshalJSON` accepts them, and `Int`
ends up 0, not the parsed integer. -/
theorem C4_narrowing_counterexample :
    IsJSONInteger [52, 50, 57, 52, 57, 54, 55, 50, 57, 54] 4294967296 ∧
    Int.UnmarshalJSON Arch.bits32 { Int := 7, Valid := false, Set := false }
        (some [52, 50, 57, 52, 57, 54, 55, 50, 57, 54]) =
      ({ Int := 0, Valid := true, Set := true }, none) ∧
    (0 : ℤ) ≠ 4294967296 := by
  have hi : IsJSONInteger [52, 50, 57, 52, 57, 54, 55, 50, 57, 54] 4294967296 := by
    refine ⟨[], [52, 50, 57, 52, 57, 54, 55, 50, 57, 54], [], rfl, by simp, by simp,
      ⟨[52, 50, 57, 52, 57, 54, 55, 50, 57, 54], ⟨by simp, by decide⟩, by simp,
        Or.inl ⟨rfl, by decide⟩⟩, by decide⟩
  refine ⟨hi, ?_, by decide⟩
  rw [UnmarshalJSON_of_integer Arch.bits32 _ (some [52, 50, 57, 52, 57, 54, 55, 50, 57, 54])
    4294967296 hi]
  have : int Arch.bits32 4294967296 = 0 := by decide
  rw [this]

/-- The payloads the decoder must reject are rejected: the fraction `1.5`, the
exponent form `1e2`, the out-of-range `9223372036854775808`, the quoted `"12"`,
the non-numeric `abc` and the empty input all give an error. -/
theorem UnmarshalJSON_rejects (a : Arch) (i : null.Int) :
    (Int.UnmarshalJSON a i (some [49, 46, 53])).2 = some error.decode ∧
    (Int.UnmarshalJSON a i (some [49, 101, 50])).2 = some error.decode ∧
    (Int.UnmarshalJSON a i (some [57, 50, 50, 51, 51, 55, 50, 48, 51, 54, 56, 53, 52, 55, 55,
      53, 56, 48, 56])).2 = some error.decode ∧
    (Int.UnmarshalJSON a i (some [34, 49, 50, 34])).2 = some error.decode ∧
    (Int.UnmarshalJSON a i (some [97, 98, 99])).2 = some error.decode ∧
    (Int.UnmarshalJSON a i (some [])).2 = some error.decode := by
  cases a <;> refine ⟨?_, ?_, ?_, ?_, ?_, ?_⟩ <;> rfl

/-- C4, amended: `UnmarshalJSON` returns an error if and only if the bytes are
neither a JSON `null` nor a JSON integer in 64-bit range (a JSON text, so with
optional white space around the value); on every success that is not a `null`
it sets `Valid = true` and leaves `Int` equal to the parsed integer narrowed to
the platform `int`, which is the parsed integer itself whenever that fits the
platform `int`. -/
theorem C4_UnmarshalJSON_errors (a : Arch) (i : null.Int) (data : Bytes) :
    ((Int.UnmarshalJSON a i data).2 ≠ none ↔
      ¬ (IsJSONNull data.elems ∨ ∃ v, IsJSONInteger data.elems v)) ∧
    ((Int.UnmarshalJSON a i data).2 = none → ¬ IsJSONNull data.elems →
      ∃ v, IsJSONInteger data.elems v ∧ (Int.UnmarshalJSON a i data).1.Valid = true ∧
        (Int.UnmarshalJSON a i data).1.Int = int a v) ∧
    (∀ v, IsJSONInteger data.elems v →
      Int.UnmarshalJSON a i data = ({ Int := int a v, Valid := true, Set := true }, none) ∧
      (fitsInt a v → (Int.UnmarshalJSON a i data).1.Int = v)) := by
  have hint : ∀ v, IsJSONInteger data.elems v →
      Int.UnmarshalJSON a i data = ({ Int := int a v, Valid := true, Set := true }, none) ∧
      (fitsInt a v → (Int.UnmarshalJSON a i data).1.Int = v) := by
    intro v hv
    have h := UnmarshalJSON_of_integer a i data v hv
    refine ⟨h, fun hfit => ?_⟩
    rw [h]
    exact int_of_fitsInt a v hfit
  refine ⟨UnmarshalJSON_error_iff a i data, ?_, hint⟩
  intro hok hnn
  have hcl : IsJSONNull data.elems ∨ ∃ v, IsJSONInteger data.elems v := by
    by_contra hc
    exact (UnmarshalJSON_error_iff a i data).mpr hc hok
  rcases hcl with hn | ⟨v, hv⟩
  · exact absurd hn hnn
  · refine ⟨v, hv, ?_, ?_⟩ <;> rw [(hint v hv).1]

/-- Witness of C4 (amended) at the bytes ` -17` on a 32-bit platform. -/
theorem C4_UnmarshalJSON_errors_witness :
    IsJSONInteger (Bytes.elems (some [32, 45, 49, 55])) (-17) ∧ fitsInt Arch.bits32 (-17) ∧
    (Int.UnmarshalJSON Arch.bits32 { Int := 7, Valid := false, Set := false }
      (some [32, 45, 49, 55])).1.Int = -17 := by
  have hi : IsJSONInteger (Bytes.elems (some [32, 45, 49, 55])) (-17) :=
    ⟨[32], [45, 49, 55], [], rfl, by decide, by simp,
      ⟨[49, 55], ⟨by simp, by decide⟩, by simp, Or.inr ⟨rfl, by decide⟩⟩, by decide⟩
  exact ⟨hi, by decide,
    ((C4_UnmarshalJSON_errors Arch.bits32 { Int := 7, Valid := false, Set := false }
      (some [32, 45, 49, 55])).2.2 (-17) hi).2 (by decide)⟩

/-- C5: for every prior wrapper state, `UnmarshalText` applied to a nil or an
empty byte sequence returns no error and leaves `Valid = false` and
`Set = true`. -/
theorem C5_UnmarshalText_empty (a : Arch) (i : null.Int) :
    ((Int.UnmarshalText a i none).2 = none ∧ (Int.UnmarshalText a i none).1.Valid = false ∧
      (Int.UnmarshalText a i none).1.Set = true) ∧
    ((Int.UnmarshalText a i (some [])).2 = none ∧
      (Int.UnmarshalText a i (some [])).1.Valid = false ∧
      (Int.UnmarshalText a i (some [])).1.Set = true) := by
  simp [Int.UnmarshalText, Bytes.len, Bytes.elems]

/-- C6: for every non-empty text that is not an optionally signed base-10
integer within the platform `int` range, `UnmarshalText` returns a parse error
and nevertheless leaves `Set = true`, for every prior wrapper state. -/
theorem C6_UnmarshalText_parse_error (a : Arch) (i : null.Int) (text : Bytes)
    (hne : text.len ≠ 0) (hbad : ¬ IsPlatformDecimal a text.elems) :
    (∃ cause, (Int.UnmarshalText a i text).2 = some (error.parse cause)) ∧
    (Int.UnmarshalText a i text).1.Set = true := by
  have hnn : text ≠ none := by
    rintro rfl
    exact hne rfl
  have herr : (ParseInt a text.elems 0).2 ≠ none :=
    fun h => hbad (platformDecimal_of_ok a _ h)
  unfold Int.UnmarshalText
  rw [if_neg (by simp [hnn, hne])]
  constructor
  · cases hp : (ParseInt a text.elems 0).2 with
    | none => exact absurd hp herr
    | some e => exact ⟨e, by simp [hp]⟩
  · simp only
    split_ifs <;> rfl

/-- Witness of C6 at the text `abc`. -/
theorem C6_UnmarshalText_parse_error_witness :
    Bytes.len (some [97, 98, 99]) ≠ 0 ∧ ¬ IsPlatformDecimal Arch.bits64 [97, 98, 99] ∧
    (∃ cause, (Int.UnmarshalText Arch.bits64 { Int := 7, Valid := true, Set := false }
        (some [97, 98, 99])).2 = some (error.parse cause)) ∧
    (Int.UnmarshalText Arch.bits64 { Int := 7, Valid := true, Set := false }
      (some [97, 98, 99])).1.Set = true :=
  ⟨by decide, not_platformDecimal_of_error _ _ (by decide),
    C6_UnmarshalText_parse_error Arch.bits64 _ (some [97, 98, 99]) (by decide)
      (not_platformDecimal_of_error _ _ (by decide))⟩

/-- C7: for every prior wrapper state, `Scan` applied to the database NULL
value (`nil`) returns no error and leaves `Int = 0`, `Valid = false` and
`Set = false`. -/
theorem C7_Scan_null (a : Arch) (i : null.Int) :
    Int.Scan a i DriverValue.null = ({ Int := 0, Valid := false, Set := false }, none) := by
  simp [Int.Scan]

/-- C8: for every 64-bit integer `v` that fits the platform `int` and every
prior wrapper state, `Scan` applied to the driver integer `v` returns no error
and leaves `Int = v`, `Valid = true`, `Set = true`, and `Value()` on the
resulting wrapper returns the 64-bit integer `v` with no error. -/
theorem C8_Scan_integer (a : Arch) (i : null.Int) (v : ℤ) (hv : fitsInt a v) :
    Int.Scan a i (DriverValue.int64 v) = ({ Int := v, Valid := true, Set := true }, none) ∧
    Int.Value (Int.Scan a i (DriverValue.int64 v)).1 = (DriverValue.int64 v, none) := by
  have hs : Int.Scan a i (DriverValue.int64 v) =
      ({ Int := v, Valid := true, Set := true }, none) := by
    simp [Int.Scan, ConvertAssign, hv]
  refine ⟨hs, ?_⟩
  rw [hs]
  simp [Int.Value, int64_of_fitsInt a v hv]

/-- Witness of C8 at `v = 42`. -/
theorem C8_Scan_integer_witness :
    fitsInt Arch.bits32 42 ∧
    Int.Scan Arch.bits32 { Int := 7, Valid := false, Set := false } (DriverValue.int64 42) =
      ({ Int := 42, Valid := true, Set := true }, none) ∧
    Int.Value (Int.Scan Arch.bits32 { Int := 7, Valid := false, Set := false }
      (DriverValue.int64 42)).1 = (DriverValue.int64 42, none) :=
  ⟨by decide, C8_Scan_integer Arch.bits32 _ 42 (by decide)⟩

/-- C9: `Value()` never returns an error; it returns the database NULL
sentinel if and only if `Valid` is false, and otherwise returns `Int` widened
to a 64-bit integer, which for a value of the platform `int` is `Int` itself. -/
theorem C9_Value (i : null.Int) :
    (Int.Value i).2 = none ∧
    ((Int.Value i).1 = DriverValue.null ↔ i.Valid = false) ∧
    (i.Valid = true → (Int.Value i).1 = DriverValue.int64 (int64 i.Int) ∧
      ∀ a, fitsInt a i.Int → (Int.Value i).1 = DriverValue.int64 i.Int) := by
  cases hv : i.Valid with
  | false => simp [Int.Value, hv]
  | true =>
    simp only [Int.Value, hv, Bool.true_eq_false, if_false, true_and, forall_true_left]
    refine ⟨by simp, fun a ha => ?_⟩
    rw [int64_of_fitsInt a _ ha]

/-- Witness of C9 at the valid wrapper holding 5. -/
theorem C9_Value_witness :
    fitsInt Arch.bits32 5 ∧
    (Int.Value { Int := 5, Valid := true, Set := false }).1 = DriverValue.int64 5 :=
  ⟨by decide,
    ((C9_Value { Int := 5, Valid := true, Set := false }).2.2 rfl).2 Arch.bits32 (by decide)⟩

/-- C10: `IntFromPtr` of a nil pointer equals `NewInt(0, false)`, and for every
integer `n` `IntFromPtr` of a pointer to `n` equals `NewInt(n, true)`, so
`Valid = true`, `Int = n` and `Set = true`. -/
theorem C10_IntFromPtr :
    IntFromPtr none = NewInt 0 false ∧
    ∀ n : ℤ, IntFromPtr (some n) = NewInt n true ∧
      (IntFromPtr (some n)).Valid = true ∧ (IntFromPtr (some n)).Int = n ∧
      (IntFromPtr (some n)).Set = true :=
  ⟨rfl, fun _ => ⟨rfl, rfl, rfl, rfl⟩⟩

/-! ## The random fill and the state after a decode -/

theorem tmod_negSucc (n : ℕ) (k : ℕ) :
    Int.tmod (Int.negSucc n) (k : ℤ) = -(((n + 1) % k : ℕ) : ℤ) := by
  cases k <;> rfl

theorem tmod_MaxInt32 (r : ℤ) :
    (∃ q : ℤ, r = q * MaxInt32 + Int.tmod r MaxInt32) ∧
    -(2 ^ 31 - 1) < Int.tmod r MaxInt32 ∧ Int.tmod r MaxInt32 < 2 ^ 31 - 1 ∧
    (0 ≤ r → 0 ≤ Int.tmod r MaxInt32) ∧ (r ≤ 0 → Int.tmod r MaxInt32 ≤ 0) := by
  have hm : MaxInt32 = ((2147483647 : ℕ) : ℤ) := by unfold MaxInt32; norm_num
  rw [hm]
  have hdef := Int.tmod_add_tdiv r ((2147483647 : ℕ) : ℤ)
  refine ⟨⟨r.tdiv ((2147483647 : ℕ) : ℤ), by rw [mul_comm]; omega⟩, ?_⟩
  cases r with
  | ofNat n =>
    simp only [Int.ofNat_eq_coe] at hdef ⊢
    have h1 := Int.tmod_nonneg ((2147483647 : ℕ) : ℤ) (Int.ofNat_nonneg n)
    have h2 := Int.tmod_lt_of_pos (n : ℤ) (show (0 : ℤ) < ((2147483647 : ℕ) : ℤ) by norm_num)
    simp only [Int.ofNat_eq_coe] at h1
    refine ⟨by omega, by omega, fun _ => h1, fun hr => ?_⟩
    have h0 : (n : ℤ) = 0 := by omega
    rw [h0]
    simp
  | negSucc n =>
    rw [tmod_negSucc]
    have h3 : (n + 1) % 2147483647 < 2147483647 := Nat.mod_lt _ (by norm_num)
    have h4 := Int.negSucc_lt_zero n
    refine ⟨by omega, by omega, fun hr => by omega, fun _ => by omega⟩

theorem UnmarshalJSON_Set (a : Arch) (i : null.Int) (data : Bytes) :
    (Int.UnmarshalJSON a i data).1.Set = true := by
  unfold Int.UnmarshalJSON
  split_ifs
  · rfl
  · simp only
    split <;> rfl

theorem UnmarshalText_Set (a : Arch) (i : null.Int) (text : Bytes) :
    (Int.UnmarshalText a i text).1.Set = true := by
  unfold Int.UnmarshalText
  split_ifs
  · rfl
  · simp only
    split_ifs <;> rfl

theorem Scan_Set (a : Arch) (i : null.Int) (v : DriverValue) (hv : v ≠ DriverValue.null) :
    (Int.Scan a i v).1.Set = true ∧ (Int.Scan a i v).1.Valid = true := by
  unfold Int.Scan
  rw [if_neg hv]
  exact ⟨rfl, rfl⟩

theorem UnmarshalJSON_error_state (a : Arch) (i : null.Int) (data : Bytes)
    (h : (Int.UnmarshalJSON a i data).2 ≠ none) :
    (Int.UnmarshalJSON a i data).1 = { i with Set := true } := by
  unfold Int.UnmarshalJSON at h ⊢
  split_ifs at h ⊢ with hb
  · exact absurd rfl h
  · simp only at h ⊢
    split at h
    · rfl
    · exact absurd rfl h

theorem UnmarshalText_error_state (a : Arch) (i : null.Int) (text : Bytes)
    (h : (Int.UnmarshalText a i text).2 ≠ none) :
    (Int.UnmarshalText a i text).1 = { i with Valid := false, Set := true } := by
  unfold Int.UnmarshalText at h ⊢
  split_ifs at h ⊢ with hb
  · exact absurd rfl h
  · simp only at h ⊢
    have hp : (ParseInt a text.elems 0).2 ≠ none := by
      intro hn
      rw [hn] at h
      exact h rfl
    simp [hp]

theorem ConvertAssign_error (a : Arch) (dest : ℤ) (v : DriverValue)
    (h : (ConvertAssign a dest v).2 ≠ none) : (ConvertAssign a dest v).1 = dest := by
  unfold ConvertAssign at h ⊢
  cases v with
  | null => rfl
  | other => rfl
  | int64 x =>
    simp only at h ⊢
    split_ifs at h ⊢
    · exact absurd rfl h
    · rfl
  | string s =>
    simp only at h ⊢
    split_ifs at h ⊢
    · exact absurd rfl h
    · rfl
  | bytes s =>
    simp only at h ⊢
    split_ifs at h ⊢
    · exact absurd rfl h
    · rfl

theorem Scan_error_state (a : Arch) (i : null.Int) (v : DriverValue)
    (h : (Int.Scan a i v).2 ≠ none) :
    (Int.Scan a i v).1 = { i with Valid := true, Set := true } := by
  unfold Int.Scan at h ⊢
  split_ifs at h ⊢ with hv
  · exact absurd rfl h
  · simp only at h ⊢
    rw [ConvertAssign_error a i.Int v h]

theorem FormatInt_signedDecimal (v : ℤ) (h : fitsBits 64 v) : IsSignedDecimal (FormatInt v) v := by
  obtain ⟨ds, hds, _, hlit⟩ := FormatInt_literal v h
  rcases hlit with hl | hl
  · exact ⟨ds, hds, Or.inl hl⟩
  · exact ⟨ds, hds, Or.inr (Or.inr hl)⟩

theorem FormatInt_ne_nil (v : ℤ) (h : fitsBits 64 v) : FormatInt v ≠ [] := by
  obtain ⟨ds, hds, _, hlit⟩ := FormatInt_literal v h
  rcases hlit with hl | hl
  · rw [hl.1]; exact hds.1
  · rw [hl.1]; simp

theorem UnmarshalText_FormatInt (a : Arch) (j : null.Int) (v : ℤ) (hv : fitsInt a v) :
    Int.UnmarshalText a j (some (FormatInt v)) =
      ({ Int := v, Valid := true, Set := true }, none) := by
  have h64 := fitsBits64_of_fitsInt a v hv
  have hp : ParseInt a (FormatInt v) 0 = (v, none) :=
    (ParseInt_platform_iff a _ v).mpr ⟨FormatInt_signedDecimal v h64, hv⟩
  have hlen : (FormatInt v).length ≠ 0 := by
    intro h0
    exact FormatInt_ne_nil v h64 (List.length_eq_zero.mp h0)
  unfold Int.UnmarshalText
  rw [if_neg (by simp [Bytes.len, Bytes.elems, hlen])]
  simp [Bytes.elems, hp, int_of_fitsInt a v hv]

/-! ## Claims on construction, accessors, the random fill and the decode state -/

/-- C11: for every integer `n` and every flag `b`, `NewInt(n, b)` has
`Set = true`, `Valid = b` and `Int = n` (the value is kept as it is also when
`b` is false), `IsSet()` on it returns true, and `IntFrom(n)` equals
`NewInt(n, true)`. -/
theorem C11_NewInt (n : ℤ) (b : Bool) :
    (NewInt n b).Set = true ∧ (NewInt n b).Valid = b ∧ (NewInt n b).Int = n ∧
    Int.IsSet (NewInt n b) = true ∧ IntFrom n = NewInt n true :=
  ⟨rfl, rfl, rfl, rfl, rfl⟩

/-- C12: for every prior wrapper state and every integer `n`, `SetValid(n)`
leaves `Int = n`, `Valid = true` and `Set = true`; it returns nothing, so it
has no failure mode. -/
theorem C12_SetValid (i : null.Int) (n : ℤ) :
    Int.SetValid i n = { Int := n, Valid := true, Set := true } ∧
    (Int.SetValid i n).Int = n ∧ (Int.SetValid i n).Valid = true ∧
    (Int.SetValid i n).Set = true :=
  ⟨rfl, rfl, rfl, rfl⟩

/-- C13: `Ptr()` returns the nil pointer if and only if `Valid` is false, which
is exactly when `IsZero()` returns true; when `Valid` is true the pointer
returned holds a value equal to `Int`. Both methods have a value receiver:
each is a function of the wrapper's value and the wrapper is not written. -/
theorem C13_Ptr_IsZero (i : null.Int) :
    (Int.Ptr i = none ↔ i.Valid = false) ∧
    (i.Valid = false ↔ Int.IsZero i = true) ∧
    (Int.Ptr i = none ↔ Int.IsZero i = true) ∧
    (i.Valid = true → Int.Ptr i = some i.Int) := by
  cases hv : i.Valid <;> simp [Int.Ptr, Int.IsZero, hv]

/-- Witness of C13 at the valid wrapper holding 9. -/
theorem C13_Ptr_IsZero_witness :
    Int.Ptr { Int := 9, Valid := true, Set := false } = some 9 :=
  (C13_Ptr_IsZero { Int := 9, Valid := true, Set := false }).2.2.2 rfl

/-- C14: for every prior wrapper state, every random source and every type
hint, `Randomize` with `shouldBeNull = true` leaves `Valid = false` and
`Int = 0`, and the result is the same for every other random source and type
hint. -/
theorem C14_Randomize_null (a : Arch) (i : null.Int) (r r' : ℤ) (ft ft' : List ℕ) :
    (Int.Randomize a i r ft true).Valid = false ∧
    (Int.Randomize a i r ft true).Int = 0 ∧
    Int.Randomize a i r ft true = Int.Randomize a i r' ft' true :=
  ⟨rfl, rfl, rfl⟩

/-- C15: for every value `r` drawn from the random source, `Randomize` with
`shouldBeNull = false` leaves `Valid = true` and `Int` equal to the truncated
remainder of `r` by `2^31 - 1`: `r` is a multiple of `2^31 - 1` plus `Int`,
`Int` has the sign of `r`, and `-(2^31 - 1) < Int < 2^31 - 1`. The narrowing to
32 bits and the conversion to `int` do not change the remainder. -/
theorem C15_Randomize_value (a : Arch) (i : null.Int) (r : ℤ) (ft : List ℕ) :
    (Int.Randomize a i r ft false).Valid = true ∧
    (Int.Randomize a i r ft false).Int = Int.tmod r (2 ^ 31 - 1) ∧
    int32 (Int.tmod r (2 ^ 31 - 1)) = Int.tmod r (2 ^ 31 - 1) ∧
    (∃ q : ℤ, r = q * (2 ^ 31 - 1) + (Int.Randomize a i r ft false).Int) ∧
    (0 ≤ r → 0 ≤ (Int.Randomize a i r ft false).Int) ∧
    (r ≤ 0 → (Int.Randomize a i r ft false).Int ≤ 0) ∧
    -(2 ^ 31 - 1) < (Int.Randomize a i r ft false).Int ∧
    (Int.Randomize a i r ft false).Int < 2 ^ 31 - 1 := by
  obtain ⟨hq, hlo, hhi, hpos, hneg⟩ := tmod_MaxInt32 r
  have h32 : int32 (Int.tmod r MaxInt32) = Int.tmod r MaxInt32 := by
    apply wrapSigned_of_fits32
    unfold fitsBits
    norm_num at hlo hhi ⊢
    omega
  have hint : int a (Int.tmod r MaxInt32) = Int.tmod r MaxInt32 := by
    apply int_of_fitsInt
    cases a <;> simp only [fitsInt, IntSize, fitsBits] <;> norm_num at hlo hhi ⊢ <;> omega
  have hval : (Int.Randomize a i r ft false).Int = Int.tmod r MaxInt32 := by
    simp [Int.Randomize, h32, hint]
  have hm : MaxInt32 = 2 ^ 31 - 1 := rfl
  rw [hval]
  rw [hm] at hq hlo hhi hpos hneg h32 ⊢
  exact ⟨by simp [Int.Randomize], rfl, h32, hq, hpos, hneg, hlo, hhi⟩

/-- Witness of C15 at the draw `r = -5` on a 64-bit platform. -/
theorem C15_Randomize_value_witness :
    (-5 : ℤ) ≤ 0 ∧
    (Int.Randomize Arch.bits64 { Int := 0, Valid := false, Set := false } (-5) [] false).Int
      ≤ 0 :=
  ⟨by decide,
    (C15_Randomize_value Arch.bits64 { Int := 0, Valid := false, Set := false } (-5)
      []).2.2.2.2.2.1 (by decide)⟩

/-- C16 as stated fails for `Scan`: scanning the database NULL into a wrapper
that was set returns no error and leaves `Set = false`. -/
theorem C16_Scan_null_counterexample :
    (Int.Scan Arch.bits64 { Int := 7, Valid := true, Set := true } DriverValue.null).2 = none ∧
    (Int.Scan Arch.bits64 { Int := 7, Valid := true, Set := true } DriverValue.null).1.Set
      = false :=
  ⟨rfl, rfl⟩

/-- C16, amended: every `UnmarshalJSON` and every `UnmarshalText` that succeeds
leaves `Set = true`, also when the input is the JSON `null` or an empty text,
and every `Scan` of a value other than the database NULL that succeeds leaves
`Set = true`; `Scan` of the database NULL succeeds and leaves `Set = false`. -/
theorem C16_success_sets_Set (a : Arch) (i : null.Int) :
    (∀ data, (Int.UnmarshalJSON a i data).2 = none → (Int.UnmarshalJSON a i data).1.Set = true) ∧
    (∀ text, (Int.UnmarshalText a i text).2 = none → (Int.UnmarshalText a i text).1.Set = true) ∧
    (∀ v, v ≠ DriverValue.null → (Int.Scan a i v).2 = none → (Int.Scan a i v).1.Set = true) ∧
    ((Int.UnmarshalJSON a i NullBytes).2 = none ∧ (Int.UnmarshalJSON a i NullBytes).1.Set = true) ∧
    ((Int.UnmarshalText a i (some [])).2 = none ∧
      (Int.UnmarshalText a i (some [])).1.Set = true) ∧
    ((Int.Scan a i DriverValue.null).2 = none ∧ (Int.Scan a i DriverValue.null).1.Set = false) :=
  ⟨fun data _ => UnmarshalJSON_Set a i data,
    fun text _ => UnmarshalText_Set a i text,
    fun v hv _ => (Scan_Set a i v hv).1,
    ⟨by simp [Int.UnmarshalJSON, bytesEqual], UnmarshalJSON_Set a i NullBytes⟩,
    ⟨by simp [Int.UnmarshalText, Bytes.len, Bytes.elems], UnmarshalText_Set a i (some [])⟩,
    ⟨by simp [Int.Scan], by simp [Int.Scan]⟩⟩

/-- Witness of C16 (amended): a successful `Scan` of the driver integer 42 into
the zero-valued wrapper. -/
theorem C16_success_sets_Set_witness :
    DriverValue.int64 42 ≠ DriverValue.null ∧
    (Int.Scan Arch.bits32 { Int := 0, Valid := false, Set := false }
      (DriverValue.int64 42)).2 = none ∧
    (Int.Scan Arch.bits32 { Int := 0, Valid := false, Set := false }
      (DriverValue.int64 42)).1.Set = true :=
  ⟨by decide, by decide,
    (C16_success_sets_Set Arch.bits32 { Int := 0, Valid := false, Set := false }).2.2.1
      (DriverValue.int64 42) (by decide) (by decide)⟩

/-- C17 as stated fails for `UnmarshalText`: on the text `abc` it returns a
syntax error and a wrapper that was valid is left with `Valid = false`. -/
theorem C17_UnmarshalText_counterexample :
    (Int.UnmarshalText Arch.bits64 { Int := 7, Valid := true, Set := false }
      (some [97, 98, 99])).2 = some (error.parse NumErr.ErrSyntaxKind) ∧
    (Int.UnmarshalText Arch.bits64 { Int := 7, Valid := true, Set := false }
      (some [97, 98, 99])).1.Valid = false ∧
    (Int.UnmarshalText Arch.bits64 { Int := 7, Valid := true, Set := false }
      (some [97, 98, 99])).1.Valid ≠
        ({ Int := 7, Valid := true, Set := false } : null.Int).Valid := by
  refine ⟨?_, ?_, ?_⟩ <;> decide

/-- C17, amended: whenever `UnmarshalJSON`, `UnmarshalText` or `Scan` returns
an error, `Int` equals its value before the call and `Set` is true; `Valid`
equals its value before the call after a failed `UnmarshalJSON`, is false after
a failed `UnmarshalText`, and is true after a failed `Scan`. -/
theorem C17_error_state (a : Arch) (i : null.Int) :
    (∀ data, (Int.UnmarshalJSON a i data).2 ≠ none →
      (Int.UnmarshalJSON a i data).1 = { Int := i.Int, Valid := i.Valid, Set := true }) ∧
    (∀ text, (Int.UnmarshalText a i text).2 ≠ none →
      (Int.UnmarshalText a i text).1 = { Int := i.Int, Valid := false, Set := true }) ∧
    (∀ v, (Int.Scan a i v).2 ≠ none →
      (Int.Scan a i v).1 = { Int := i.Int, Valid := true, Set := true }) :=
  ⟨fun data h => UnmarshalJSON_error_state a i data h,
    fun text h => UnmarshalText_error_state a i text h,
    fun v h => Scan_error_state a i v h⟩

/-- Witness of C17 (amended): the three operations failing on `abc`, from a
wrapper holding 7. -/
theorem C17_error_state_witness :
    ((Int.UnmarshalJSON Arch.bits64 { Int := 7, Valid := false, Set := false }
        (some [97, 98, 99])).2 ≠ none ∧
      (Int.UnmarshalJSON Arch.bits64 { Int := 7, Valid := false, Set := false }
        (some [97, 98, 99])).1 = { Int := 7, Valid := false, Set := true }) ∧
    ((Int.UnmarshalText Arch.bits64 { Int := 7, Valid := false, Set := false }
        (some [97, 98, 99])).2 ≠ none ∧
      (Int.UnmarshalText Arch.bits64 { Int := 7, Valid := false, Set := false }
        (some [97, 98, 99])).1 = { Int := 7, Valid := false, Set := true }) ∧
    ((Int.Scan Arch.bits64 { Int := 7, Valid := false, Set := false }
        (DriverValue.string [97, 98, 99])).2 ≠ none ∧
      (Int.Scan Arch.bits64 { Int := 7, Valid := false, Set := false }
        (DriverValue.string [97, 98, 99])).1 = { Int := 7, Valid := true, Set := true }) :=
  ⟨⟨by decide,
      (C17_error_state Arch.bits64 { Int := 7, Valid := false, Set := false }).1
        (some [97, 98, 99]) (by decide)⟩,
    ⟨by decide,
      (C17_error_state Arch.bits64 { Int := 7, Valid := false, Set := false }).2.1
        (some [97, 98, 99]) (by decide)⟩,
    ⟨by decide,
      (C17_error_state Arch.bits64 { Int := 7, Valid := false, Set := false }).2.2
        (DriverValue.string [97, 98, 99]) (by decide)⟩⟩

/-- C18 at its failing input: `UnmarshalText` of the empty text into a wrapper
holding 7 returns no error and leaves `Valid = false` with `Int` still 7, on
both platforms; the field is not reset to the zero value. -/
theorem C18_UnmarshalText_keeps_Int (a : Arch) :
    Int.UnmarshalText a { Int := 7, Valid := true, Set := false } (some []) =
      ({ Int := 7, Valid := false, Set := true }, none) ∧
    (Int.UnmarshalText a { Int := 7, Valid := true, Set := false } (some [])).1.Int ≠ 0 := by
  cases a <;> exact ⟨rfl, by decide⟩

/-- The other paths that end with `Valid = false` on success do reset `Int`:
the `null` branch of `UnmarshalJSON`, the NULL branch of `Scan` and the null
branch of `Randomize` each leave `Int = 0`. -/
theorem invalid_paths_reset_Int (a : Arch) (i : null.Int) :
    (∀ data, (Int.UnmarshalJSON a i data).2 = none →
      (Int.UnmarshalJSON a i data).1.Valid = false → (Int.UnmarshalJSON a i data).1.Int = 0) ∧
    (∀ v, (Int.Scan a i v).1.Valid = false → (Int.Scan a i v).1.Int = 0) ∧
    (∀ r ft b, (Int.Randomize a i r ft b).Valid = false → (Int.Randomize a i r ft b).Int = 0) := by
  refine ⟨?_, ?_, ?_⟩
  · intro data hok hv
    unfold Int.UnmarshalJSON at hok hv ⊢
    split_ifs at hok hv ⊢
    · rfl
    · simp only at hok hv ⊢
      split at hok
      · simp at hok
      · rename_i hu
        rw [hu] at hv
        simp at hv
  · intro v hv
    by_cases hn : v = DriverValue.null
    · rw [hn]; rfl
    · rw [(Scan_Set a i v hn).2] at hv
      exact absurd hv (by decide)
  · intro r ft b hv
    cases b
    · simp [Int.Randomize] at hv
    · rfl

/-- C19: for every wrapper `i` (whose `Int` is a value of the platform `int`
when it is valid) and every wrapper `j`, `MarshalText(i)` returns no error and
`UnmarshalText` on `j` with the bytes it returns gives no error and leaves
`Valid = i.Valid` and `Set = true`, and `Int = i.Int` when `i` is valid;
`MarshalText` of an invalid `i` is the empty byte sequence, and for a valid `i`
it is the bytes of `MarshalJSON`. -/
theorem C19_text_round_trip (a : Arch) (i j : null.Int)
    (hfit : i.Valid = true → fitsInt a i.Int) :
    (Int.MarshalText i).2 = none ∧
    (Int.UnmarshalText a j (Int.MarshalText i).1).2 = none ∧
    (Int.UnmarshalText a j (Int.MarshalText i).1).1.Valid = i.Valid ∧
    (Int.UnmarshalText a j (Int.MarshalText i).1).1.Set = true ∧
    (i.Valid = true → (Int.UnmarshalText a j (Int.MarshalText i).1).1.Int = i.Int) ∧
    (i.Valid = false → (Int.MarshalText i).1 = some []) ∧
    (i.Valid = true → (Int.MarshalText i).1 = (Int.MarshalJSON i).1) := by
  cases hv : i.Valid with
  | false =>
    have hm : Int.MarshalText i = (some [], none) := by simp [Int.MarshalText, hv]
    rw [hm]
    simp [Int.UnmarshalText, Bytes.len, Bytes.elems]
  | true =>
    have hf := hfit hv
    have h64 := fitsBits64_of_fitsInt a i.Int hf
    have hm : Int.MarshalText i = (some (FormatInt i.Int), none) := by
      simp [Int.MarshalText, hv, int64_of_fits _ h64]
    have hj : Int.MarshalJSON i = (some (FormatInt i.Int), none) := by
      simp [Int.MarshalJSON, hv, int64_of_fits _ h64]
    rw [hm, hj, UnmarshalText_FormatInt a j i.Int hf]
    simp

/-- Witness of C19 at the valid wrapper holding -2147483648 on a 32-bit
platform. -/
theorem C19_text_round_trip_witness :
    fitsInt Arch.bits32 (-2147483648) ∧
    (Int.UnmarshalText Arch.bits32 { Int := 7, Valid := false, Set := false }
      (Int.MarshalText { Int := -2147483648, Valid := true, Set := true }).1).1.Int =
      -2147483648 :=
  ⟨by decide,
    (C19_text_round_trip Arch.bits32 { Int := -2147483648, Valid := true, Set := true }
      { Int := 7, Valid := false, Set := false } (fun _ => by decide)).2.2.2.2.1 rfl⟩

/-- C20: `Randomize` never changes the `Set` field: for every prior wrapper
state, random source, type hint and `shouldBeNull` flag, `Set` after the call
equals `Set` before the call; randomizing a zero-valued wrapper yields a valid
value with `Set = false`. -/
theorem C20_Randomize_keeps_Set (a : Arch) (i : null.Int) (r : ℤ) (ft : List ℕ)
    (shouldBeNull : Bool) :
    (Int.Randomize a i r ft shouldBeNull).Set = i.Set ∧
    (Int.Randomize a { Int := 0, Valid := false, Set := false } r ft false).Valid = true ∧
    (Int.Randomize a { Int := 0, Valid := false, Set := false } r ft false).Set = false := by
  cases shouldBeNull <;> simp [Int.Randomize]

end null
